import Mathlib

/-!
Verification development for the crabterm terminal-multiplexing bridge.

This file shallowly embeds the parts of the Rust sources that the verified
properties are about:

* `src/keybind/key.rs`      — `Key`, `Modifiers`, `KeyEvent`
* `src/keybind/parser.rs`   — `parse_bytes` and its helpers
* `src/keybind/processor.rs`— `key_event_to_bytes`, the prefix state machine
* `src/keybind/config.rs`   — `KeybindConfig::parse` / `parse_line`
* `src/iofilter/charmap.rs` — `CharmapFilter`
* `src/io/console.rs`       — `Console::read` result queuing
* `src/io/tcp_server.rs`    — `TcpClient` read/write/flush/close
* `src/hub.rs`              — `IoHub` backpressure state machine

Bytes are modelled as `Nat` (the Rust code only ever range-tests them),
byte buffers as `List Nat`, and the I/O environment (how many bytes a
device write accepts, what a socket read returns) as explicit parameters
threaded through the state.
-/

deriving instance DecidableEq for Except

namespace Crabterm

/-! ### Key model (src/keybind/key.rs) -/

/-- Modifier bitset, from `key.rs` `Modifiers`. -/
structure Modifiers where
  ctrl : Bool
  alt : Bool
  shift : Bool
deriving DecidableEq, Repr

/-- `Modifiers::none()`. -/
def Modifiers.none : Modifiers := ⟨false, false, false⟩

/-- `Modifiers::ctrl()`. -/
def Modifiers.ctrlOnly : Modifiers := ⟨true, false, false⟩

/-- `Modifiers::alt()`. -/
def Modifiers.altOnly : Modifiers := ⟨false, true, false⟩

/-- The `Key` enum from `key.rs`.  `char` carries the Unicode codepoint of the
Rust `char`; `end` is a Lean keyword so that variant is named `endK`. -/
inductive Key where
  | char (c : Nat)
  | f (n : Nat)
  | escape
  | enter
  | tab
  | backspace
  | up
  | down
  | left
  | right
  | home
  | endK
  | pageUp
  | pageDown
  | insert
  | delete
deriving DecidableEq, Repr

/-- `KeyEvent` from `key.rs`. -/
structure KeyEvent where
  key : Key
  modifiers : Modifiers
deriving DecidableEq, Repr

/-- `KeyEvent::new`. -/
def KeyEvent.new (k : Key) (m : Modifiers) : KeyEvent := ⟨k, m⟩

/-- `KeyEvent::char`. -/
def KeyEvent.charEv (c : Nat) : KeyEvent := ⟨Key.char c, Modifiers.none⟩

/-- `KeyEvent::ctrl_char`. -/
def KeyEvent.ctrl_char (c : Nat) : KeyEvent := ⟨Key.char c, Modifiers.ctrlOnly⟩

/-! ### Parser (src/keybind/parser.rs) -/

/-- `ParseResult` from `parser.rs`. -/
inductive ParseResult where
  | Key (ev : KeyEvent) (consumed : Nat)
  | NeedMore
  | Passthrough (b : Nat)
deriving DecidableEq, Repr

/-- Result of the CSI final-byte scan loop in `parse_csi_sequence`
(`parser.rs` lines 173-191): either a final byte in `0x40..=0x7E` was found
after a run of parameter/intermediate bytes in `0x20..=0x3F`, or an invalid
byte was hit, or the buffer ran out. -/
inductive CsiScan where
  | found (params : List Nat) (finalByte : Nat)
  | invalid
  | needMore
deriving DecidableEq, Repr

/-- The scan loop of `parse_csi_sequence`, applied to the bytes after `ESC [`. -/
def csiScan (params : List Nat) : List Nat → CsiScan
  | [] => .needMore
  | b :: t =>
    if 0x40 ≤ b ∧ b ≤ 0x7e then .found params b
    else if 0x20 ≤ b ∧ b ≤ 0x3f then csiScan (params ++ [b]) t
    else .invalid

/-- Split a parameter byte string on `;` (byte 59), keeping empty parts,
mirroring `params_str.split(';')` in `interpret_csi`. -/
def splitOnSemi : List Nat → List (List Nat)
  | [] => [[]]
  | b :: t =>
    match splitOnSemi t with
    | [] => [[]]
    | g :: gs => if b = 59 then [] :: g :: gs else (b :: g) :: gs

/-- Value of a run of ASCII decimal digit bytes; `Option.none` if any byte is
not a digit. -/
def digitsVal : List Nat → Option Nat
  | [] => some 0
  | d :: t =>
    if 48 ≤ d ∧ d ≤ 57 then
      match digitsVal t with
      | some v => some (v + (d - 48) * 10 ^ t.length)
      | Option.none => Option.none
    else Option.none

/-- Rust `str::parse::<u8>()` on a byte string: an optional leading `+`,
then a non-empty run of decimal digits whose value fits in `u8`. -/
def parseU8 (l : List Nat) : Option Nat :=
  let digits := match l with
    | 43 :: t => t
    | _ => l
  if digits = [] then Option.none
  else match digitsVal digits with
    | some v => if v ≤ 255 then some v else Option.none
    | Option.none => Option.none

/-- `parse_modifier_param` (`parser.rs` lines 262-271): `s.parse().unwrap_or(1)`,
then `bits = n - 1` (saturating), `shift = bits&1`, `alt = bits&2`, `ctrl = bits&4`. -/
def parse_modifier_param (s : List Nat) : Modifiers :=
  let n := (parseU8 s).getD 1
  let bits := n - 1
  ⟨bits / 4 % 2 = 1, bits / 2 % 2 = 1, bits % 2 = 1⟩

/-- `interpret_csi` (`parser.rs` lines 194-238). -/
def interpret_csi (params : List Nat) (finalByte : Nat) (consumed : Nat) : ParseResult :=
  let parts := splitOnSemi params
  let modifier := if 2 ≤ parts.length then parse_modifier_param (parts.getD 1 []) else Modifiers.none
  let key : Option Key :=
    if finalByte = 65 then some Key.up
    else if finalByte = 66 then some Key.down
    else if finalByte = 67 then some Key.right
    else if finalByte = 68 then some Key.left
    else if finalByte = 72 then some Key.home
    else if finalByte = 70 then some Key.endK
    else if finalByte = 126 then
      match parseU8 (parts.headD []) with
      | some 1 => some Key.home
      | some 2 => some Key.insert
      | some 3 => some Key.delete
      | some 4 => some Key.endK
      | some 5 => some Key.pageUp
      | some 6 => some Key.pageDown
      | some 15 => some (Key.f 5)
      | some 17 => some (Key.f 6)
      | some 18 => some (Key.f 7)
      | some 19 => some (Key.f 8)
      | some 20 => some (Key.f 9)
      | some 21 => some (Key.f 10)
      | some 23 => some (Key.f 11)
      | some 24 => some (Key.f 12)
      | _ => Option.none
    else Option.none
  match key with
  | some k => .Key (KeyEvent.new k modifier) consumed
  | Option.none => .Key (KeyEvent.new Key.escape Modifiers.none) 1

/-- `parse_csi_sequence` (`parser.rs` lines 166-192).  The source first
requires at least three bytes (`ESC [ final`), then scans from index 2. -/
def parse_csi_sequence (bytes : List Nat) : ParseResult :=
  match bytes with
  | _ :: _ :: c :: t =>
    match csiScan [] (c :: t) with
    | .found params finalByte => interpret_csi params finalByte (2 + params.length + 1)
    | .invalid => .Key (KeyEvent.new Key.escape Modifiers.none) 1
    | .needMore => .NeedMore
  | _ => .NeedMore

/-- `parse_ss3_sequence` (`parser.rs` lines 241-260). -/
def parse_ss3_sequence (bytes : List Nat) : ParseResult :=
  match bytes with
  | _ :: _ :: x :: _ =>
    if x = 80 then .Key (KeyEvent.new (Key.f 1) Modifiers.none) 3
    else if x = 81 then .Key (KeyEvent.new (Key.f 2) Modifiers.none) 3
    else if x = 82 then .Key (KeyEvent.new (Key.f 3) Modifiers.none) 3
    else if x = 83 then .Key (KeyEvent.new (Key.f 4) Modifiers.none) 3
    else if x = 72 then .Key (KeyEvent.new Key.home Modifiers.none) 3
    else if x = 70 then .Key (KeyEvent.new Key.endK Modifiers.none) 3
    else .Key (KeyEvent.new Key.escape Modifiers.none) 1
  | _ => .NeedMore

/-- `parse_escape_sequence` (`parser.rs` lines 131-164). -/
def parse_escape_sequence (bytes : List Nat) : ParseResult :=
  match bytes with
  | _ :: second :: _ =>
    if second = 91 then parse_csi_sequence bytes
    else if second = 79 then parse_ss3_sequence bytes
    else if 0x20 ≤ second ∧ second < 0x7f then
      .Key (KeyEvent.new (Key.char second) Modifiers.altOnly) 2
    else if 0x01 ≤ second ∧ second ≤ 0x1a ∧ second ≠ 0x1b then
      .Key (KeyEvent.new (Key.char (second + 96)) ⟨true, true, false⟩) 2
    else .Key (KeyEvent.new Key.escape Modifiers.none) 1
  | _ => .NeedMore

/-- `parse_bytes` (`parser.rs` lines 89-129). -/
def parse_bytes : List Nat → ParseResult
  | [] => .NeedMore
  | first :: t =>
    if first = 0x1b then parse_escape_sequence (first :: t)
    else if 0x01 ≤ first ∧ first ≤ 0x1a then
      if first = 0x09 then .Key (KeyEvent.new Key.tab Modifiers.none) 1
      else if first = 0x0d then .Key (KeyEvent.new Key.enter Modifiers.none) 1
      else .Key (KeyEvent.new (Key.char (first + 96)) Modifiers.ctrlOnly) 1
    else if first = 0x7f then .Key (KeyEvent.new Key.backspace Modifiers.none) 1
    else if 0x20 ≤ first ∧ first < 0x7f then
      .Key (KeyEvent.new (Key.char first) Modifiers.none) 1
    else .Passthrough first

/-- Run `KeyParser::parse_next` to exhaustion on a byte sequence, succeeding
only if the whole sequence is consumed as key events (the parser's accepted
grammar of claim C6: no `Passthrough`, no trailing `NeedMore`).  `fuel`
bounds the recursion; every `Key` result consumes at least one byte, so
`fuel = length + 1` always suffices (see `parseAll`). -/
def parseAllF : Nat → List Nat → Option (List KeyEvent)
  | _, [] => some []
  | 0, _ :: _ => Option.none
  | fuel + 1, b :: t =>
    match parse_bytes (b :: t) with
    | .Key ev n =>
      if n = 0 then Option.none
      else (parseAllF fuel ((b :: t).drop n)).map (ev :: ·)
    | _ => Option.none

/-- A byte sequence's full parse into key events, when it is in the parser's
accepted grammar. -/
def parseAll (s : List Nat) : Option (List KeyEvent) :=
  parseAllF (s.length + 1) s

/-! ### Actions and bindings (src/keybind/action.rs, src/keybind/config.rs)

Note: the snapshot's `action.rs` still declares a stale `ToggleTimestamp`
variant, while `config.rs`, `console.rs` and `hub.rs` all construct and match
`Action::FilterToggle(String)`; the latter is the variant the claim-relevant
code uses, so it is the one embedded here. -/

/-- The `Action` sum type as used by `config.rs`/`console.rs`/`hub.rs`. -/
inductive Action where
  | quit
  | send (bytes : List Nat)
  | filterToggle (name : String)
deriving DecidableEq, Repr

/-- `KeybindResult` from `action.rs`. -/
inductive KeybindResult where
  | passthrough (bytes : List Nat)
  | action (a : Action)
  | consumed
deriving DecidableEq, Repr

/-- `KeybindConfig` from `config.rs`.  The Rust `HashMap`s become association
lists; `prefix` is a Lean keyword so the field is named `pfx`.  `settings`
has the type the snapshot's `config.rs` declares: `HashMap<String, bool>`. -/
structure KeybindConfig where
  pfx : Option KeyEvent
  prefix_bindings : List (KeyEvent × Action)
  direct_bindings : List (KeyEvent × Action)
  settings : List (String × Bool)
deriving DecidableEq, Repr

/-- `KeybindConfig::new()`. -/
def KeybindConfig.new : KeybindConfig := ⟨Option.none, [], [], []⟩

/-! ### Encoder and processor (src/keybind/processor.rs) -/

/-- `u8::to_ascii_lowercase` on a codepoint. -/
def to_ascii_lowercase (c : Nat) : Nat :=
  if 65 ≤ c ∧ c ≤ 90 then c + 32 else c

/-- `u8::is_ascii_lowercase`. -/
def is_ascii_lowercase (c : Nat) : Bool :=
  97 ≤ c ∧ c ≤ 122

/-- UTF-8 encoding of a codepoint, mirroring `char::encode_utf8`. -/
def utf8Encode (c : Nat) : List Nat :=
  if c < 0x80 then [c]
  else if c < 0x800 then [0xc0 + c / 64, 0x80 + c % 64]
  else if c < 0x10000 then [0xe0 + c / 4096, 0x80 + c / 64 % 64, 0x80 + c % 64]
  else [0xf0 + c / 262144, 0x80 + c / 4096 % 64, 0x80 + c / 64 % 64, 0x80 + c % 64]

/-- `key_event_to_bytes` (`processor.rs` lines 160-218): convert a key event
back to terminal bytes, best effort.  Alt prepends ESC; Ctrl+letter maps to
`0x01..=0x1A`; unencodable events yield `Option.none`. -/
def key_event_to_bytes (event : KeyEvent) : Option (List Nat) :=
  let pre : List Nat := if event.modifiers.alt then [0x1b] else []
  match event.key with
  | .char c =>
    if event.modifiers.ctrl then
      let code := to_ascii_lowercase c
      if is_ascii_lowercase code then some (pre ++ [code - 97 + 1]) else Option.none
    else some (pre ++ utf8Encode c)
  | .escape => some (pre ++ [0x1b])
  | .enter => some (pre ++ [0x0d])
  | .tab => some (pre ++ [0x09])
  | .backspace => some (pre ++ [0x7f])
  | .up => some (pre ++ [0x1b, 91, 65])
  | .down => some (pre ++ [0x1b, 91, 66])
  | .right => some (pre ++ [0x1b, 91, 67])
  | .left => some (pre ++ [0x1b, 91, 68])
  | .home => some (pre ++ [0x1b, 91, 72])
  | .endK => some (pre ++ [0x1b, 91, 70])
  | .pageUp => some (pre ++ [0x1b, 91, 53, 126])
  | .pageDown => some (pre ++ [0x1b, 91, 54, 126])
  | .insert => some (pre ++ [0x1b, 91, 50, 126])
  | .delete => some (pre ++ [0x1b, 91, 51, 126])
  | .f n =>
    if n = 1 then some (pre ++ [0x1b, 79, 80])
    else if n = 2 then some (pre ++ [0x1b, 79, 81])
    else if n = 3 then some (pre ++ [0x1b, 79, 82])
    else if n = 4 then some (pre ++ [0x1b, 79, 83])
    else if n = 5 then some (pre ++ [0x1b, 91, 49, 53, 126])
    else if n = 6 then some (pre ++ [0x1b, 91, 49, 55, 126])
    else if n = 7 then some (pre ++ [0x1b, 91, 49, 56, 126])
    else if n = 8 then some (pre ++ [0x1b, 91, 49, 57, 126])
    else if n = 9 then some (pre ++ [0x1b, 91, 50, 48, 126])
    else if n = 10 then some (pre ++ [0x1b, 91, 50, 49, 126])
    else if n = 11 then some (pre ++ [0x1b, 91, 50, 51, 126])
    else if n = 12 then some (pre ++ [0x1b, 91, 50, 52, 126])
    else Option.none

/-- Concatenation of `key_event_to_bytes` over a list of key events
(`Option.none` if any event is unencodable). -/
def encodeAll (evs : List KeyEvent) : Option (List Nat) :=
  (evs.mapM key_event_to_bytes).map List.flatten

/-- The two processor states (`processor.rs` `enum State`). -/
inductive PState where
  | normal
  | awaitingPrefixCommand
deriving DecidableEq, Repr

/-- The mutable part of `KeybindProcessor` relevant to key handling: the
current state and the instant it was entered (time is abstracted to `Nat`). -/
structure ProcState where
  state : PState
  state_entered : Nat
deriving DecidableEq, Repr

/-- `KeybindProcessor::handle_normal` (`processor.rs` lines 113-130).
`now` stands for `Instant::now()` at the moment of the call. -/
def handle_normal (cfg : KeybindConfig) (now : Nat) (ps : ProcState)
    (key_event : KeyEvent) : Option KeybindResult × ProcState :=
  match List.lookup key_event cfg.direct_bindings with
  | some action => (some (.action action), ps)
  | Option.none =>
    match cfg.pfx with
    | some p =>
      if key_event = p then
        (some .consumed, ⟨.awaitingPrefixCommand, now⟩)
      else
        ((key_event_to_bytes key_event).map .passthrough, ps)
    | Option.none => ((key_event_to_bytes key_event).map .passthrough, ps)

/-- `KeybindProcessor::handle_prefix_mode` (`processor.rs` lines 132-156). -/
def handle_prefix_mode (cfg : KeybindConfig) (ps : ProcState)
    (key_event : KeyEvent) : Option KeybindResult × ProcState :=
  let ps' : ProcState := { ps with state := .normal }
  match List.lookup key_event cfg.prefix_bindings with
  | some action => (some (.action action), ps')
  | Option.none =>
    let bytes :=
      (match cfg.pfx with
        | some p => (key_event_to_bytes p).getD []
        | Option.none => []) ++ (key_event_to_bytes key_event).getD []
    if bytes = [] then (Option.none, ps') else (some (.passthrough bytes), ps')

/-- `KeybindProcessor::handle_key_event` (`processor.rs` lines 106-111). -/
def handle_key_event (cfg : KeybindConfig) (now : Nat) (ps : ProcState)
    (key_event : KeyEvent) : Option KeybindResult × ProcState :=
  match ps.state with
  | .normal => handle_normal cfg now ps key_event
  | .awaitingPrefixCommand => handle_prefix_mode cfg ps key_event

/-- `KeybindProcessor::handle_parse_result` (`processor.rs` lines 98-104). -/
def handle_parse_result (cfg : KeybindConfig) (now : Nat) (ps : ProcState) :
    ParseResult → Option KeybindResult × ProcState
  | .Key ev _ => handle_key_event cfg now ps ev
  | .Passthrough b => (some (.passthrough [b]), ps)
  | .NeedMore => (Option.none, ps)

/-- `KeybindProcessor::drain_results` (`processor.rs` lines 80-96) together
with the buffer-draining behaviour of `KeyParser::parse_next`
(`parser.rs` lines 41-59): repeatedly parse the buffer, feed each result to
`handle_parse_result`, and stop at `NeedMore`.  Returns the emitted results,
the processor state, and the remaining parse buffer.  Each step removes at
least one byte from the buffer, so `fuel = length + 1` suffices. -/
def drainResultsF : Nat → KeybindConfig → Nat → ProcState → List Nat →
    List KeybindResult × ProcState × List Nat
  | 0, _, _, ps, buf => ([], ps, buf)
  | fuel + 1, cfg, now, ps, buf =>
    match buf with
    | [] => ([], ps, [])
    | b :: t =>
      match parse_bytes (b :: t) with
      | .NeedMore => ([], ps, b :: t)
      | .Key ev n =>
        let (r?, ps') := handle_key_event cfg now ps ev
        let (rs, ps'', buf'') := drainResultsF fuel cfg now ps' ((b :: t).drop n)
        (match r? with
          | some r => r :: rs
          | Option.none => rs, ps'', buf'')
      | .Passthrough pb =>
        let (rs, ps'', buf'') := drainResultsF fuel cfg now ps t
        (.passthrough [pb] :: rs, ps'', buf'')

/-- `KeybindProcessor::process` (`processor.rs` lines 39-43): push the input
onto the parse buffer, then drain. -/
def KeybindProcessor.process (cfg : KeybindConfig) (now : Nat) (ps : ProcState)
    (buf input : List Nat) : List KeybindResult × ProcState × List Nat :=
  drainResultsF ((buf ++ input).length + 1) cfg now ps (buf ++ input)

/-! ### Filters (src/iofilter/charmap.rs, src/iofilter/mod.rs)

`charmap.rs` and `timestamp.rs` import a `SettingValue` type from
`keybind::config` that the snapshot's `config.rs` does not define (it stores
plain `bool` settings); `SettingValue` is modelled from its uses in
`charmap.rs`/`timestamp.rs` and their tests: a string-or-bool value with
`as_str`/`as_bool` accessors.  The `TimestampFilter` is carried only for its
`enabled` flag (its output depends on the wall clock and no claim is about
it). -/

/-- Modelled from the spec and from the uses in `charmap.rs`/`timestamp.rs`:
the missing `keybind::config::SettingValue`, a `string | bool` setting value. -/
inductive SettingValue where
  | boolVal (b : Bool)
  | strVal (s : String)
deriving DecidableEq, Repr

/-- `SettingValue::as_str` as used by `CharmapFilter::configure`. -/
def SettingValue.as_str : SettingValue → Option String
  | .strVal s => some s
  | .boolVal _ => Option.none

/-- The `Mapping` enum from `charmap.rs`. -/
inductive Mapping where
  | crLf
  | crCrLf
  | ignCr
  | lfCr
  | lfCrLf
  | ignLf
  | bsDel
  | delBs
deriving DecidableEq, Repr

/-- `str::to_lowercase` on a char list (its effect is ASCII lowering on every
string this code compares against). -/
def strToLower (s : List Char) : List Char :=
  s.map Char.toLower

/-- `str::trim` on a char list. -/
def trimChars (s : List Char) : List Char :=
  ((s.dropWhile Char.isWhitespace).reverse.dropWhile Char.isWhitespace).reverse

/-- `str::split` on a single separator character, keeping empty parts. -/
def splitOnChar (sep : Char) : List Char → List (List Char)
  | [] => [[]]
  | c :: t =>
    match splitOnChar sep t with
    | [] => [[]]
    | g :: gs => if c = sep then [] :: g :: gs else (c :: g) :: gs

/-- `Mapping::from_str` (`charmap.rs` lines 23-35). -/
def Mapping.fromStr (s : List Char) : Option Mapping :=
  let l := strToLower s
  if l = "crlf".toList then some .crLf
  else if l = "crcrlf".toList then some .crCrLf
  else if l = "igncr".toList then some .ignCr
  else if l = "lfcr".toList then some .lfCr
  else if l = "lfcrlf".toList then some .lfCrLf
  else if l = "ignlf".toList then some .ignLf
  else if l = "bsdel".toList then some .bsDel
  else if l = "delbs".toList then some .delBs
  else Option.none

/-- `Mapping::apply` (`charmap.rs` lines 37-69): the bytes this mapping
produces for `byte`, or `Option.none` when the mapping does not fire. -/
def Mapping.apply (m : Mapping) (byte : Nat) : Option (List Nat) :=
  match m with
  | .crLf => if byte = 13 then some [10] else Option.none
  | .crCrLf => if byte = 13 then some [13, 10] else Option.none
  | .ignCr => if byte = 13 then some [] else Option.none
  | .lfCr => if byte = 10 then some [13] else Option.none
  | .lfCrLf => if byte = 10 then some [13, 10] else Option.none
  | .ignLf => if byte = 10 then some [] else Option.none
  | .bsDel => if byte = 8 then some [127] else Option.none
  | .delBs => if byte = 127 then some [8] else Option.none

/-- `CharmapFilter` state (`charmap.rs` lines 72-76). -/
structure CharmapFilter where
  enabled : Bool
  imap : List Mapping
  omap : List Mapping
deriving DecidableEq, Repr

/-- `CharmapFilter::new`. -/
def CharmapFilter.new : CharmapFilter := ⟨false, [], []⟩

/-- `CharmapFilter::parse_mappings` (`charmap.rs` lines 104-109). -/
def CharmapFilter.parse_mappings (value : String) : List Mapping :=
  (splitOnChar ',' value.toList).filterMap (fun s => Mapping.fromStr (trimChars s))

/-- `CharmapFilter::configure` (`charmap.rs` lines 87-102). -/
def CharmapFilter.configure (f : CharmapFilter)
    (settings : List (String × SettingValue)) : CharmapFilter :=
  let f :=
    match (List.lookup "charmap-imap" settings).bind SettingValue.as_str with
    | some value =>
      let f := { f with imap := CharmapFilter.parse_mappings value }
      if f.imap ≠ [] then { f with enabled := true } else f
    | Option.none => f
  match (List.lookup "charmap-omap" settings).bind SettingValue.as_str with
  | some value =>
    let f := { f with omap := CharmapFilter.parse_mappings value }
    if f.omap ≠ [] then { f with enabled := true } else f
  | Option.none => f

/-- The per-byte mapping search of `CharmapFilter::apply_mappings`
(`charmap.rs` lines 113-124): mappings are tried in order, the first that
fires wins, an unmatched byte passes through. -/
def applyFirst (mappings : List Mapping) (byte : Nat) : List Nat :=
  match mappings with
  | [] => [byte]
  | m :: rest =>
    match m.apply byte with
    | some out => out
    | Option.none => applyFirst rest byte

/-- `CharmapFilter::apply_mappings` (`charmap.rs` lines 111-126). -/
def apply_mappings (mappings : List Mapping) (buf : List Nat) : List Nat :=
  buf.flatMap (applyFirst mappings)

/-- `TimestampFilter` flags (`timestamp.rs`); the claims only use `enabled`. -/
structure TimestampFilter where
  enabled : Bool
  show_abs : Bool
  show_rel : Bool
  at_line_start : Bool
deriving DecidableEq, Repr

/-- `TimestampFilter::new`. -/
def TimestampFilter.new : TimestampFilter := ⟨false, true, false, true⟩

/-- `FilterChain` (`iofilter/mod.rs` lines 30-33). -/
structure FilterChain where
  timestamp_filter : TimestampFilter
  charmap_filter : CharmapFilter
deriving DecidableEq, Repr

/-- `FilterChain::toggle` (`iofilter/mod.rs` lines 50-62). -/
def FilterChain.toggle (fc : FilterChain) (name : String) : FilterChain :=
  if name = "timestamp" then
    { fc with timestamp_filter :=
        { fc.timestamp_filter with enabled := ¬fc.timestamp_filter.enabled } }
  else if name = "charmap" then
    { fc with charmap_filter :=
        { fc.charmap_filter with enabled := ¬fc.charmap_filter.enabled } }
  else fc

/-- `FilterChain::filter_in` (`iofilter/mod.rs` lines 80-88): only the charmap
filter applies on the console→device direction. -/
def FilterChain.filter_in (fc : FilterChain) (buf : List Nat) : List Nat :=
  if fc.charmap_filter.enabled then apply_mappings fc.charmap_filter.omap buf
  else buf

/-! ### IoResult and the console endpoint (src/traits.rs, src/io/console.rs) -/

/-- `IoResult` from `traits.rs`. -/
inductive IoResult where
  | data (bytes : List Nat)
  | action (a : Action)
  | none
deriving DecidableEq, Repr

/-- `Console` state (`console.rs` lines 12-17).  `pending_results` models the
Rust `Vec` *reversed*: the Rust code pops from the vector's end and pushes
freshly processed results in reverse order, so here the head is the next
result to pop and new results are prepended in order. -/
structure Console where
  cfg : KeybindConfig
  ps : ProcState
  parserBuf : List Nat
  pending_results : List KeybindResult
  filter_chain : FilterChain
deriving DecidableEq, Repr

/-- `Console::keybind_result_to_read_result` (`console.rs` lines 36-49).
`Passthrough` bytes go through `filter_in`; a `FilterToggle` action is
handled locally by toggling the chain and yields nothing; `Consumed` yields
nothing. -/
def keybind_result_to_read_result (fc : FilterChain) :
    KeybindResult → Option IoResult × FilterChain
  | .passthrough bytes => (some (.data (fc.filter_in bytes)), fc)
  | .action (.filterToggle name) => (Option.none, fc.toggle name)
  | .action a => (some (.action a), fc)
  | .consumed => (Option.none, fc)

/-- Outcome of the `std::io::stdin().read(..)` call inside `Console::read`;
`okRead []` is `Ok(0)` (EOF), `okRead bs` with `bs ≠ []` is `Ok(n)`. -/
inductive StdinRead where
  | okRead (bytes : List Nat)
  | wouldBlock
  | err
deriving DecidableEq, Repr

/-- `Console::read` (`console.rs` lines 75-114), with the stdin outcome and
the current instant as explicit parameters.  Returns `Except.error ()` for
the propagated-error arm. -/
def Console.read (c : Console) (stdin : StdinRead) (now : Nat) :
    Except Unit IoResult × Console :=
  -- First, check pending results from previous processing.
  let step2 : Console → Except Unit IoResult × Console := fun c =>
    match stdin with
    | .okRead [] => (.ok .none, c)
    | .okRead bs =>
      let (results, ps', buf') :=
        KeybindProcessor.process c.cfg now c.ps c.parserBuf bs
      let c := { c with
        ps := ps'
        parserBuf := buf'
        pending_results := results ++ c.pending_results }
      match c.pending_results with
      | r :: rest =>
        let (res?, fc') := keybind_result_to_read_result c.filter_chain r
        let c := { c with pending_results := rest, filter_chain := fc' }
        match res? with
        | some res => (.ok res, c)
        | Option.none => (.ok .none, c)
      | [] => (.ok .none, c)
    | .wouldBlock => (.ok .none, c)
    | .err => (.error (), c)
  match c.pending_results with
  | r :: rest =>
    let (res?, fc') := keybind_result_to_read_result c.filter_chain r
    let c := { c with pending_results := rest, filter_chain := fc' }
    match res? with
    | some res => (.ok res, c)
    | Option.none => step2 c
  | [] => step2 c

/-! ### The I/O hub backpressure machine (src/hub.rs)

The hub state keeps the fields of `IoHub` the claims are about, plus an
explicit model of the environment:

* `devCaps` is the stream of byte counts the device's `write_all` will accept
  on successive calls (`traits.rs` `write_all` returns `0 ≤ n ≤ len`; a write
  error — including "device not connected" — shows up as a short count).
* `devInterest` is the poll-registry entry for `TOKEN_DEV`:
  `some (readable, writable)` when the device is registered, `Option.none`
  after deregistration.

Every device endpoint in the sources (`serial_device.rs`, `tcp_device.rs`,
`echo_device.rs`) inherits the trait-default `set_writable_interest`
(`traits.rs` lines 62-64), which ignores the request; `devSetWritableInterest`
embeds that default. -/

/-- The hub state (`hub.rs` lines 14-38) restricted to the claim-relevant
fields, with the device-capacity environment threaded through. -/
structure Hub where
  device_write_blocked : Bool
  pending_device_write : List Nat
  quit_requested : Bool
  devConnected : Bool
  devZombie : Bool
  devInterest : Option (Bool × Bool)
  devCaps : List Nat
deriving DecidableEq, Repr

/-- The hub as built by `IoHub::new` (`hub.rs` lines 41-65): flag clear,
empty pending buffer, device handed over unconnected and unregistered. -/
def Hub.init (caps : List Nat) : Hub :=
  ⟨false, [], false, false, false, Option.none, caps⟩

/-- The trait-default `IoInstance::set_writable_interest`
(`traits.rs` lines 62-64), used unchanged by every device endpoint in the
sources: the request is ignored and the registry entry is untouched. -/
def devSetWritableInterest (h : Hub) (_writable : Bool) : Hub := h

/-- Pop the next device `write_all` capacity from the environment stream
(an exhausted stream accepts nothing). -/
def popCap (h : Hub) : Nat × Hub :=
  match h.devCaps with
  | [] => (0, h)
  | c :: t => (c, { h with devCaps := t })

/-- `IoHub::try_device_write` (`hub.rs` lines 152-173): write `bytes`,
buffering any remainder in `pending_device_write`; on a short write set
`device_write_blocked` (if not already set) and request WRITABLE interest.
Returns the updated hub and the `bool` the source returns (`true` iff the
write was short). -/
def try_device_write (h : Hub) (bytes : List Nat) : Hub × Bool :=
  let (cap, h) := popCap h
  let n := min cap bytes.length
  if n < bytes.length then
    let h := { h with pending_device_write := h.pending_device_write ++ bytes.drop n }
    let h :=
      if ¬h.device_write_blocked then
        devSetWritableInterest { h with device_write_blocked := true } true
      else h
    (h, true)
  else (h, false)

/-- `IoHub::forward_to_device` (`hub.rs` lines 106-114). -/
def forward_to_device (h : Hub) (bytes : List Nat) : Hub :=
  (try_device_write h bytes).1

/-- `IoHub::handle_action` (`hub.rs` lines 131-148). -/
def handle_action (h : Hub) : Action → Hub
  | .quit => { h with quit_requested := true }
  | .send bytes => forward_to_device h bytes
  | .filterToggle _ => h

/-- `IoHub::handle_read_result` (`hub.rs` lines 116-129). -/
def handle_read_result (h : Hub) : IoResult → Hub
  | .data bytes => forward_to_device h bytes
  | .action a => handle_action h a
  | .none => h

/-- One outcome of a `client.read()` call inside `drain_client`:
`ok r` is `Ok(r)`, `err` is `Err(_)` (the absent/disconnected-client arm
behaves like `err`: the loop breaks without processing). -/
inductive ClientRead where
  | ok (r : IoResult)
  | err
deriving DecidableEq, Repr

/-- `IoHub::drain_client` (`hub.rs` lines 177-211) over a script of read
outcomes: read and forward until `None`/error, or until the device becomes
write-blocked, or until quit is requested.  Returns the hub and the *unread*
remainder of the script, so that "stops reading" is directly observable. -/
def drain_client (h : Hub) : List ClientRead → Hub × List ClientRead
  | [] => (h, [])
  | r :: rs =>
    match r with
    | .err => (h, rs)
    | .ok .none => (h, rs)
    | .ok result =>
      let h' := handle_read_result h result
      if h'.device_write_blocked then (h', rs)
      else if h'.quit_requested then (h', rs)
      else drain_client h' rs

/-- `IoHub::drain_pending_client_data` (`hub.rs` lines 218-226): sweep every
client, stopping as soon as the device blocks again. -/
def drain_pending_client_data (h : Hub) : List (List ClientRead) → Hub
  | [] => h
  | c :: cs =>
    let h' := (drain_client h c).1
    if h'.device_write_blocked then h' else drain_pending_client_data h' cs

/-- The backpressure-relief branch of `IoHub::handle_event`
(`hub.rs` lines 234-249), entered on a WRITABLE device event while blocked:
clear the flag, cancel the WRITABLE-interest request, flush the saved bytes,
and only if the flush did not block again sweep all clients. -/
def backpressure_relief (h : Hub) (clients : List (List ClientRead)) : Hub :=
  let h := devSetWritableInterest { h with device_write_blocked := false } false
  let h :=
    if h.pending_device_write ≠ [] then
      let pending := h.pending_device_write
      forward_to_device { h with pending_device_write := [] } pending
    else h
  if ¬h.device_write_blocked then drain_pending_client_data h clients else h

/-- The client-token branch of `IoHub::handle_event` (`hub.rs` lines 291-300):
the client is drained only when `device_write_blocked` is clear; otherwise
the readiness event is ignored and nothing is read. -/
def handle_client_event (h : Hub) (reads : List ClientRead) :
    Hub × List ClientRead :=
  if ¬h.device_write_blocked then drain_client h reads else (h, reads)

/-- The device-teardown step at the top of `IoHub::run`
(`hub.rs` lines 332-338): if the device needs disconnecting, deregister it
(clearing its zombie flag, `tcp_device.rs`/`serial_device.rs` `disconnect`)
and drop `pending_device_write`; `device_write_blocked` is deliberately kept. -/
def device_teardown (h : Hub) : Hub :=
  if h.devZombie then
    { h with
      devConnected := false
      devZombie := false
      devInterest := Option.none
      pending_device_write := [] }
  else h

/-- Outcome of the `device.connect` call in `IoHub::run`. -/
inductive ConnectOutcome where
  | success
  | inProgress
  | failure
deriving DecidableEq, Repr

/-- The reconnect step of `IoHub::run` (`hub.rs` lines 345-371): when the
device is not connected, try to connect.  On success the device is registered
READABLE and `device_write_blocked` is cleared; a would-block outcome is the
TCP device's in-progress connect, which has registered READABLE|WRITABLE
(`tcp_device.rs` lines 62-73); any other error leaves the state unchanged. -/
def device_connect_step (h : Hub) (outcome : ConnectOutcome) : Hub :=
  if h.devConnected then h
  else
    match outcome with
    | .success =>
      { h with
        devConnected := true
        device_write_blocked := false
        devInterest := some (true, false) }
    | .inProgress => { h with devInterest := some (true, true) }
    | .failure => h

/-! ### Device-readable broadcast and reaping (src/hub.rs lines 251-318,
src/io/tcp_server.rs)

For claim C4 the clients are modelled with the part of `TcpClient` the
broadcast touches: the `connected` flag, the stream of outcomes of successive
`stream.write` calls (`script i = Option.none` is `Err(_)`, `some n` is
`Ok(n)`; mio's `TcpStream::flush` is a no-op and is modelled as succeeding),
a call counter, and the bytes the stream has accepted so far. -/

/-- A broadcast-side client: `connected` from `TcpClient`, the socket-write
environment, and the accepted-byte log. -/
structure BClient where
  connected : Bool
  script : Nat → Option Nat
  widx : Nat
  rx : List Nat

/-- `IoInstance::write_all` (`traits.rs` lines 45-57) specialised to
`TcpClient::write` (`tcp_server.rs` lines 109-118): keep writing until all
bytes are accepted; a write error closes the client and stops; an empty
accepted chunk stops without closing.  `fuel = buf.length` suffices because
every continuing step consumes at least one byte. -/
def clientWriteAllF : Nat → BClient → List Nat → BClient
  | _, c, [] => c
  | 0, c, _ :: _ => c
  | fuel + 1, c, b :: bs =>
    let r := c.script c.widx
    let c' := { c with widx := c.widx + 1 }
    match r with
    | Option.none => { c' with connected := false }
    | some n =>
      let k := min n (b :: bs).length
      if k = 0 then c'
      else clientWriteAllF fuel { c' with rx := c'.rx ++ (b :: bs).take k }
        ((b :: bs).drop k)

/-- `client.write_all(&buf)` as called from the device broadcast. -/
def write_all_client (c : BClient) (buf : List Nat) : BClient :=
  clientWriteAllF buf.length c buf

/-- One outcome of a `device.read()` call in the device-readable loop of
`IoHub::handle_event` (`hub.rs` lines 253-273). -/
inductive DevRead where
  | data (buf : List Nat)
  | action
  | none
  | err
deriving Repr

/-- The broadcast of one device buffer (`hub.rs` lines 256-260): every
still-connected client gets one best-effort `write_all`; disconnected
clients are skipped. -/
def broadcast_data (buf : List Nat) (c : BClient) : BClient :=
  if c.connected then write_all_client c buf else c

/-- One client's passage through the whole device-readable loop: `Data`
buffers are broadcast in order, `Action` results are skipped, and the loop
stops at `None` or at a read error. -/
def client_through_reads (c : BClient) : List DevRead → BClient
  | [] => c
  | .data buf :: rs => client_through_reads (broadcast_data buf c) rs
  | .action :: rs => client_through_reads c rs
  | .none :: _ => c
  | .err :: _ => c

/-- The device buffers the loop actually broadcasts (everything before the
first `None`/error). -/
def processed_data : List DevRead → List (List Nat)
  | [] => []
  | .data buf :: rs => buf :: processed_data rs
  | .action :: rs => processed_data rs
  | .none :: _ => []
  | .err :: _ => []

/-- The device-readable loop over the client map (`hub.rs` lines 253-273):
pointwise, each client goes through the reads. -/
def device_read_loop (reads : List DevRead) (cs : List (Nat × BClient)) :
    List (Nat × BClient) :=
  cs.map (fun tc => (tc.1, client_through_reads tc.2 reads))

/-- The reaping pass at the end of `IoHub::handle_event`
(`hub.rs` lines 302-316): every instance with `connected() = false` is
deregistered and removed.  Returns the surviving map and the deregistered
tokens. -/
def reapBy {α : Type} (conn : α → Bool) (cs : List (Nat × α)) :
    List (Nat × α) × List Nat :=
  (cs.filter (fun tc => conn tc.2), (cs.filter (fun tc => ¬conn tc.2)).map (·.1))

/-! ### TcpClient reads (src/io/tcp_server.rs lines 88-107) -/

/-- The accepted-TCP-client state the hub observes (`tcp_server.rs`
lines 47-51). -/
structure TcpClient where
  connected : Bool
deriving DecidableEq, Repr

/-- Outcome of the underlying `stream.read` call: `okRead []` is `Ok(0)`
(peer closed), `okRead bs` with `bs ≠ []` is `Ok(n)`. -/
inductive StreamRead where
  | okRead (bytes : List Nat)
  | wouldBlock
  | err
deriving DecidableEq, Repr

/-- `TcpClient::read` (`tcp_server.rs` lines 88-107): `Ok(0)` and
`WouldBlock` both yield `Ok(IoResult::None)` without touching `connected`;
only a real error closes the client and propagates. -/
def TcpClient.read (c : TcpClient) (r : StreamRead) :
    Except Unit IoResult × TcpClient :=
  match r with
  | .okRead [] => (.ok .none, c)
  | .okRead bs => (.ok (.data bs), c)
  | .wouldBlock => (.ok .none, c)
  | .err => (.error (), { c with connected := false })

/-- Outcome of the underlying `stream.write` call. -/
inductive StreamWrite where
  | okWrote (n : Nat)
  | err
deriving DecidableEq, Repr

/-- `TcpClient::write` (`tcp_server.rs` lines 109-118). -/
def TcpClient.write (c : TcpClient) (buf : List Nat) (r : StreamWrite) :
    Except Unit IoResult × TcpClient :=
  match r with
  | .okWrote n => (.ok (.data (buf.take n)), c)
  | .err => (.error (), { c with connected := false })

/-- `TcpClient::flush` (`tcp_server.rs` lines 120-125): an error closes. -/
def TcpClient.flush (c : TcpClient) (ok : Bool) : TcpClient :=
  if ok then c else { c with connected := false }

/-- `TcpClient::disconnect` (`tcp_server.rs` lines 80-86): `close()` then
deregister. -/
def TcpClient.disconnect (c : TcpClient) : TcpClient :=
  { c with connected := false }

/-! ### Config file parsing (src/keybind/config.rs) -/

/-- `LineParser::next_word` (`config.rs` lines 152-165): skip leading
whitespace, then return the run up to the next whitespace and the remainder. -/
def next_word (s : List Char) : Option (List Char × List Char) :=
  let s := s.dropWhile Char.isWhitespace
  match s with
  | [] => Option.none
  | _ => some (s.takeWhile (fun c => !c.isWhitespace),
      s.dropWhile (fun c => !c.isWhitespace))

/-- ASCII hex-digit test (`u8::is_ascii_hexdigit`). -/
def isAsciiHexdigit (c : Char) : Bool :=
  c.isDigit || (('a' ≤ c) && (c ≤ 'f')) || (('A' ≤ c) && (c ≤ 'F'))

/-- Value of an ASCII hex digit. -/
def hexCharVal (c : Char) : Nat :=
  if c.isDigit then c.toNat - 48
  else if ('a' ≤ c) && (c ≤ 'f') then c.toNat - 87
  else c.toNat - 55

/-- The scan loop of `LineParser::next_quoted_string`
(`config.rs` lines 179-223): collect characters up to the closing quote,
interpreting `\n \r \t \\ \" \xHH` escapes (`\xHH` needs exactly two hex
digits, otherwise nothing is pushed); an unknown escape keeps the backslash;
running out of input yields `Option.none` (unterminated string). -/
def qsGo : List Char → List Char → Option (List Char × List Char)
  | [], _ => Option.none
  | c :: t, acc =>
    if c = '"' then some (acc.reverse, t)
    else if c = '\\' then
      match t with
      | [] => Option.none
      | n :: t2 =>
        if n = 'n' then qsGo t2 ('\n' :: acc)
        else if n = 'r' then qsGo t2 ('\r' :: acc)
        else if n = 't' then qsGo t2 ('\t' :: acc)
        else if n = '\\' then qsGo t2 ('\\' :: acc)
        else if n = '"' then qsGo t2 ('"' :: acc)
        else if n = 'x' then
          match t2 with
          | h1 :: h2 :: t3 =>
            if isAsciiHexdigit h1 then
              if isAsciiHexdigit h2 then
                qsGo t3 (Char.ofNat (16 * hexCharVal h1 + hexCharVal h2) :: acc)
              else qsGo (h2 :: t3) acc
            else qsGo (h1 :: h2 :: t3) acc
          | [h1] =>
            if isAsciiHexdigit h1 then qsGo [] acc else qsGo [h1] acc
          | [] => qsGo [] acc
        else qsGo t2 (n :: '\\' :: acc)
    else qsGo t (c :: acc)

/-- `LineParser::next_quoted_string` (`config.rs` lines 167-224). -/
def next_quoted_string (s : List Char) : Option (List Char × List Char) :=
  let s := s.dropWhile Char.isWhitespace
  match s with
  | '"' :: t => qsGo t []
  | _ => Option.none

/-- Rust `u8::from_str_radix(s, 16)`: optional `+`, then a non-empty run of
hex digits with value at most 255. -/
def parseHexU8 (s : List Char) : Option Nat :=
  let digits := match s with
    | '+' :: t => t
    | _ => s
  if digits = [] then Option.none
  else if digits.all isAsciiHexdigit then
    let v := digits.foldl (fun acc c => acc * 16 + hexCharVal c) 0
    if v ≤ 255 then some v else Option.none
  else Option.none

/-- `parse_key` (`config.rs` lines 256-295). -/
def parse_key (s : List Char) : Except String Key :=
  let lower := strToLower s
  let fkey : Option Key :=
    match lower with
    | 'f' :: d :: ds =>
      match parseU8 ((d :: ds).map Char.toNat) with
      | some n => if 1 ≤ n ∧ n ≤ 12 then some (.f n) else Option.none
      | Option.none => Option.none
    | _ => Option.none
  match fkey with
  | some k => .ok k
  | Option.none =>
    if lower = "escape".toList ∨ lower = "esc".toList then .ok .escape
    else if lower = "enter".toList ∨ lower = "return".toList ∨ lower = "cr".toList then .ok .enter
    else if lower = "tab".toList then .ok .tab
    else if lower = "backspace".toList ∨ lower = "bs".toList then .ok .backspace
    else if lower = "up".toList then .ok .up
    else if lower = "down".toList then .ok .down
    else if lower = "left".toList then .ok .left
    else if lower = "right".toList then .ok .right
    else if lower = "home".toList then .ok .home
    else if lower = "end".toList then .ok .endK
    else if lower = "pageup".toList ∨ lower = "pgup".toList then .ok .pageUp
    else if lower = "pagedown".toList ∨ lower = "pgdn".toList then .ok .pageDown
    else if lower = "insert".toList ∨ lower = "ins".toList then .ok .insert
    else if lower = "delete".toList ∨ lower = "del".toList then .ok .delete
    else if lower = "space".toList then .ok (.char 32)
    else
      match s with
      | [c] => .ok (.char (to_ascii_lowercase c.toNat))
      | _ => .error s!"Unknown key: {String.mk s}"

/-- The modifier loop of `parse_key_event` (`config.rs` lines 240-247). -/
def parseMods : List (List Char) → Modifiers → Except String Modifiers
  | [], m => .ok m
  | part :: rest, m =>
    let l := strToLower part
    if l = "ctrl".toList ∨ l = "control".toList ∨ l = "c".toList then
      parseMods rest { m with ctrl := true }
    else if l = "alt".toList ∨ l = "meta".toList ∨ l = "m".toList then
      parseMods rest { m with alt := true }
    else if l = "shift".toList ∨ l = "s".toList then
      parseMods rest { m with shift := true }
    else .error s!"Unknown modifier: {String.mk part}"

/-- `parse_key_event` (`config.rs` lines 231-254). -/
def parse_key_event (s : List Char) : Except String KeyEvent :=
  let parts := splitOnChar '+' s
  match parts.getLast? with
  | Option.none => .error "Empty key specification"
  | some key_str =>
    match parseMods parts.dropLast Modifiers.none with
    | .error e => .error e
    | .ok modifiers =>
      match parse_key key_str with
      | .error e => .error e
      | .ok key => .ok (KeyEvent.new key modifiers)

/-- `str::starts_with("0x") || starts_with("0X")`. -/
def startsWith0x : List Char → Bool
  | '0' :: 'x' :: _ => true
  | '0' :: 'X' :: _ => true
  | _ => false

/-- The byte loop of the `send-bytes` arm of `parse_action`
(`config.rs` lines 313-324). -/
def parseSendBytes : List (List Char) → Except String (List Nat)
  | [] => .ok []
  | w :: rest =>
    let byte : Except String Nat :=
      if startsWith0x w then
        match parseHexU8 (w.drop 2) with
        | some b => .ok b
        | Option.none => .error s!"Invalid hex byte: {String.mk w}"
      else
        match parseU8 (w.map Char.toNat) with
        | some b => .ok b
        | Option.none => .error s!"Invalid byte: {String.mk w}"
    match byte with
    | .error e => .error e
    | .ok b =>
      match parseSendBytes rest with
      | .error e => .error e
      | .ok bs => .ok (b :: bs)

/-- `str::split_whitespace`: the maximal non-whitespace runs, in order. -/
def wordsAux : List Char → List Char → List (List Char)
  | [], acc => if acc = [] then [] else [acc.reverse]
  | c :: t, acc =>
    if c.isWhitespace then
      if acc = [] then wordsAux t [] else acc.reverse :: wordsAux t []
    else wordsAux t (c :: acc)

/-- `parse_action` (`config.rs` lines 297-332).  The quoted string of a
`send` action is converted to bytes the way `String::into_bytes` does: each
char is UTF-8 encoded (so `\xHH` escapes above `0x7F` become two bytes). -/
def parse_action (s : List Char) : Except String (Action × List Char) :=
  match next_word s with
  | Option.none => .error "Missing action"
  | some (action_name, rest) =>
    if action_name = "quit".toList then .ok (.quit, rest)
    else if action_name = "filter-toggle".toList then
      match next_word rest with
      | some (filter_name, rest2) => .ok (.filterToggle (String.mk filter_name), rest2)
      | Option.none => .error "filter-toggle requires a filter name"
    else if action_name = "send".toList then
      match next_quoted_string rest with
      | some (chars, rest2) =>
        .ok (.send (chars.flatMap (fun c => utf8Encode c.toNat)), rest2)
      | Option.none => .error "send requires a quoted string"
    else if action_name = "send-bytes".toList then
      match parseSendBytes (wordsAux (trimChars rest) []) with
      | .error e => .error e
      | .ok [] => .error "send-bytes requires at least one byte"
      | .ok bytes => .ok (.send bytes, [])
    else .error s!"Unknown action: {String.mk action_name}"

/-- `KeybindConfig::parse_line` (`config.rs` lines 104-140).  Binding
insertion models `HashMap::insert` by prepending, so that `List.lookup`
sees the latest entry first.  Note the `set` arm of this snapshot only
accepts *boolean* values. -/
def parse_line (cfg : KeybindConfig) (line : List Char) :
    Except String KeybindConfig :=
  match next_word line with
  | Option.none => .error "Empty directive"
  | some (directive, rest) =>
    if directive = "prefix".toList then
      match next_word rest with
      | Option.none => .error "Missing key for prefix"
      | some (key_str, _) =>
        match parse_key_event key_str with
        | .error e => .error e
        | .ok ke => .ok { cfg with pfx := some ke }
    else if directive = "map-prefix".toList then
      match next_word rest with
      | Option.none => .error "Missing key for map-prefix"
      | some (key_str, rest2) =>
        match parse_key_event key_str with
        | .error e => .error e
        | .ok key =>
          match parse_action rest2 with
          | .error e => .error e
          | .ok (action, _) =>
            .ok { cfg with prefix_bindings := (key, action) :: cfg.prefix_bindings }
    else if directive = "map".toList then
      match next_word rest with
      | Option.none => .error "Missing key for map"
      | some (key_str, rest2) =>
        match parse_key_event key_str with
        | .error e => .error e
        | .ok key =>
          match parse_action rest2 with
          | .error e => .error e
          | .ok (action, _) =>
            .ok { cfg with direct_bindings := (key, action) :: cfg.direct_bindings }
    else if directive = "set".toList then
      match next_word rest with
      | Option.none => .error "Missing setting name"
      | some (name, rest2) =>
        match next_word rest2 with
        | Option.none => .error "Missing setting value (on/off)"
        | some (value_str, _) =>
          let v := strToLower value_str
          if v = "on".toList ∨ v = "true".toList ∨ v = "yes".toList ∨ v = "1".toList then
            .ok { cfg with settings := (String.mk name, true) :: cfg.settings }
          else if v = "off".toList ∨ v = "false".toList ∨ v = "no".toList ∨ v = "0".toList then
            .ok { cfg with settings := (String.mk name, false) :: cfg.settings }
          else .error s!"Invalid boolean value: {String.mk value_str}"
    else .error s!"Unknown directive: {String.mk directive}"

/-- Rust `str::lines`: split on `\n`, strip a trailing `\r` from each line,
no trailing empty line for a trailing newline. -/
def rustLines (s : List Char) : List (List Char) :=
  if s = [] then []
  else
    let parts := splitOnChar '\n' s
    let parts := if parts.getLast? = some [] then parts.dropLast else parts
    parts.map (fun l => if l.getLast? = some '\r' then l.dropLast else l)

/-- The line loop of `KeybindConfig::parse` (`config.rs` lines 85-102). -/
def parseGo : KeybindConfig → Nat → List (List Char) → Except String KeybindConfig
  | cfg, _, [] => .ok cfg
  | cfg, line_num, line :: rest =>
    let line := trimChars line
    if line = [] ∨ line.headD ' ' = '#' then parseGo cfg (line_num + 1) rest
    else
      match parse_line cfg line with
      | .ok cfg' => parseGo cfg' (line_num + 1) rest
      | .error e => .error s!"Line {line_num + 1}: {e}"

/-- `KeybindConfig::parse` (`config.rs` lines 85-102). -/
def KeybindConfig.parse (content : String) : Except String KeybindConfig :=
  parseGo KeybindConfig.new 0 (rustLines content.toList)

/-- `KeybindConfig::default()` (`config.rs` lines 18-43). -/
def KeybindConfig.default : KeybindConfig :=
  { pfx := some (KeyEvent.ctrl_char 97)
    prefix_bindings :=
      [(KeyEvent.charEv 113, .send [0x11]),
       (KeyEvent.ctrl_char 97, .send [0x01]),
       (KeyEvent.charEv 116, .filterToggle "timestamp")]
    direct_bindings := [(KeyEvent.ctrl_char 113, .quit)]
    settings := [] }

/-- The fallback behaviour of `KeybindConfig::load` (`config.rs` lines 55-78)
for an existing config file: a parse error prints a warning and substitutes
the default configuration. -/
def KeybindConfig.loadFromContent (content : String) : KeybindConfig :=
  match KeybindConfig.parse content with
  | .ok config => config
  | .error _ => KeybindConfig.default

/-! ### Shared lemmas about the hub machine -/

/-- Spec invariant 3: `pending_device_write` is non-empty only while
`device_write_blocked`. -/
def HubInv (h : Hub) : Prop :=
  h.pending_device_write ≠ [] → h.device_write_blocked = true

theorem try_device_write_pending (h : Hub) (b : List Nat) :
    ((try_device_write h b).1.pending_device_write = h.pending_device_write ∧
      (try_device_write h b).1.device_write_blocked = h.device_write_blocked) ∨
    (try_device_write h b).1.device_write_blocked = true := by
  unfold try_device_write popCap
  cases h.devCaps <;> dsimp only <;> split
  · by_cases hb : h.device_write_blocked <;> simp [hb, devSetWritableInterest]
  · simp
  · by_cases hb : h.device_write_blocked <;> simp [hb, devSetWritableInterest]
  · simp

theorem try_device_write_inv (h : Hub) (b : List Nat) (hi : HubInv h) :
    HubInv (try_device_write h b).1 := by
  rcases try_device_write_pending h b with ⟨h1, h2⟩ | h1
  · intro hp
    rw [h1] at hp
    rw [h2]
    exact hi hp
  · intro _
    exact h1

theorem handle_read_result_inv (h : Hub) (r : IoResult) (hi : HubInv h) :
    HubInv (handle_read_result h r) := by
  cases r with
  | data b => exact try_device_write_inv h b hi
  | action a =>
    cases a with
    | quit => intro hp; exact hi hp
    | send b => exact try_device_write_inv h b hi
    | filterToggle _ => exact hi
  | none => exact hi

theorem drain_client_inv (h : Hub) (reads : List ClientRead) (hi : HubInv h) :
    HubInv (drain_client h reads).1 := by
  induction reads generalizing h with
  | nil => exact hi
  | cons r rs ih =>
    cases r with
    | err => exact hi
    | ok res =>
      cases res with
      | none => exact hi
      | data b =>
        simp only [drain_client]
        split
        · exact handle_read_result_inv h (.data b) hi
        · split
          · exact handle_read_result_inv h (.data b) hi
          · exact ih _ (handle_read_result_inv h (.data b) hi)
      | action a =>
        simp only [drain_client]
        split
        · exact handle_read_result_inv h (.action a) hi
        · split
          · exact handle_read_result_inv h (.action a) hi
          · exact ih _ (handle_read_result_inv h (.action a) hi)

theorem drain_pending_inv (h : Hub) (cs : List (List ClientRead)) (hi : HubInv h) :
    HubInv (drain_pending_client_data h cs) := by
  induction cs generalizing h with
  | nil => exact hi
  | cons c rest ih =>
    simp only [drain_pending_client_data]
    split
    · exact drain_client_inv h c hi
    · exact ih _ (drain_client_inv h c hi)

theorem backpressure_relief_inv (h : Hub) (cs : List (List ClientRead)) :
    HubInv (backpressure_relief h cs) := by
  unfold backpressure_relief devSetWritableInterest forward_to_device
  dsimp only
  split
  · -- a pending flush happened
    split
    · apply drain_pending_inv
      apply try_device_write_inv
      intro hp
      simp at hp
    · rename_i hb
      intro _
      exact not_not.mp hb
  · -- nothing pending
    split
    · apply drain_pending_inv
      rename_i hpe _
      intro hp
      exact absurd hp (by simpa using hpe)
    · rename_i hpe _
      intro hp
      exact absurd hp (by simpa using hpe)

/-- `drain_client` stops reading as soon as the handled result leaves the
device write-blocked: the remainder of the script is returned unread. -/
theorem drain_client_stop (h : Hub) (res : IoResult) (rs : List ClientRead)
    (hres : res ≠ .none)
    (hb : (handle_read_result h res).device_write_blocked = true) :
    drain_client h (.ok res :: rs) = (handle_read_result h res, rs) := by
  cases res with
  | none => exact absurd rfl hres
  | data b => simp only [drain_client, hb]; simp
  | action a => simp only [drain_client, hb]; simp

/-- `try_device_write` / `drain_client` / `drain_pending_client_data` never
touch the device's poll-registry entry, because every device endpoint uses
the no-op trait default for `set_writable_interest`. -/
theorem try_device_write_interest (h : Hub) (b : List Nat) :
    ((try_device_write h b).1.devInterest = h.devInterest ∧
     (try_device_write h b).1.devConnected = h.devConnected) := by
  unfold try_device_write popCap
  cases h.devCaps <;> dsimp only <;> split
  · by_cases hb : h.device_write_blocked <;> simp [hb, devSetWritableInterest]
  · simp
  · by_cases hb : h.device_write_blocked <;> simp [hb, devSetWritableInterest]
  · simp

theorem handle_read_result_interest (h : Hub) (r : IoResult) :
    ((handle_read_result h r).devInterest = h.devInterest ∧
     (handle_read_result h r).devConnected = h.devConnected) := by
  cases r with
  | data b => exact try_device_write_interest h b
  | action a =>
    cases a with
    | quit => exact ⟨rfl, rfl⟩
    | send b => exact try_device_write_interest h b
    | filterToggle _ => exact ⟨rfl, rfl⟩
  | none => exact ⟨rfl, rfl⟩

theorem drain_client_interest (h : Hub) (reads : List ClientRead) :
    ((drain_client h reads).1.devInterest = h.devInterest ∧
     (drain_client h reads).1.devConnected = h.devConnected) := by
  induction reads generalizing h with
  | nil => exact ⟨rfl, rfl⟩
  | cons r rs ih =>
    cases r with
    | err => exact ⟨rfl, rfl⟩
    | ok res =>
      cases res with
      | none => exact ⟨rfl, rfl⟩
      | data b =>
        simp only [drain_client]
        split
        · exact handle_read_result_interest h (.data b)
        · split
          · exact handle_read_result_interest h (.data b)
          · obtain ⟨i1, i2⟩ := ih (handle_read_result h (.data b))
            obtain ⟨j1, j2⟩ := handle_read_result_interest h (.data b)
            exact ⟨i1.trans j1, i2.trans j2⟩
      | action a =>
        simp only [drain_client]
        split
        · exact handle_read_result_interest h (.action a)
        · split
          · exact handle_read_result_interest h (.action a)
          · obtain ⟨i1, i2⟩ := ih (handle_read_result h (.action a))
            obtain ⟨j1, j2⟩ := handle_read_result_interest h (.action a)
            exact ⟨i1.trans j1, i2.trans j2⟩

theorem drain_pending_interest (h : Hub) (cs : List (List ClientRead)) :
    ((drain_pending_client_data h cs).devInterest = h.devInterest ∧
     (drain_pending_client_data h cs).devConnected = h.devConnected) := by
  induction cs generalizing h with
  | nil => exact ⟨rfl, rfl⟩
  | cons c rest ih =>
    simp only [drain_pending_client_data]
    split
    · exact drain_client_interest h c
    · obtain ⟨i1, i2⟩ := ih (drain_client h c).1
      obtain ⟨j1, j2⟩ := drain_client_interest h c
      exact ⟨i1.trans j1, i2.trans j2⟩

/-! ### Claim theorems -/

/-- C1: for every `try_device_write` call, if the device accepts all of the
bytes the hub state is otherwise unchanged (only the capacity environment
advances); if it accepts `n < len` bytes then exactly `bytes[n..]` is
appended to `pending_device_write` and the blocked flag is set, so every
byte is either written (the `take n` prefix) or buffered (the `drop n`
suffix); and `drain_client` stops draining as soon as
`device_write_blocked` becomes true, returning the rest of the script
unread. -/
theorem c1_try_device_write_conserves (h : Hub) (bytes : List Nat) :
    (min (h.devCaps.headD 0) bytes.length = bytes.length →
      try_device_write h bytes = ({ h with devCaps := h.devCaps.tail }, false)) ∧
    (min (h.devCaps.headD 0) bytes.length < bytes.length →
      (try_device_write h bytes).1.pending_device_write =
        h.pending_device_write ++ bytes.drop (min (h.devCaps.headD 0) bytes.length) ∧
      (try_device_write h bytes).1.device_write_blocked = true ∧
      (try_device_write h bytes).2 = true ∧
      (try_device_write h bytes).1.quit_requested = h.quit_requested ∧
      (try_device_write h bytes).1.devConnected = h.devConnected ∧
      (try_device_write h bytes).1.devInterest = h.devInterest) ∧
    bytes.take (min (h.devCaps.headD 0) bytes.length) ++
      bytes.drop (min (h.devCaps.headD 0) bytes.length) = bytes ∧
    (∀ (h₂ : Hub) (res : IoResult) (rs : List ClientRead), res ≠ .none →
      (handle_read_result h₂ res).device_write_blocked = true →
      drain_client h₂ (.ok res :: rs) = (handle_read_result h₂ res, rs)) := by
  refine ⟨?_, ?_, List.take_append_drop _ _, fun h₂ res rs => drain_client_stop h₂ res rs⟩
  · intro hn
    unfold try_device_write popCap
    cases hc : h.devCaps with
    | nil =>
      dsimp only
      rw [hc] at hn
      simp only [List.headD_nil] at hn
      rw [hn]
      simp only [lt_self_iff_false, if_false, hc, List.tail_nil, Prod.mk.injEq, and_true]
      rw [← hc]
    | cons c t =>
      dsimp only
      rw [hc] at hn
      simp only [List.headD_cons] at hn
      rw [hn]
      simp
  · intro hn
    unfold try_device_write popCap
    cases hc : h.devCaps with
    | nil =>
      rw [hc] at hn
      simp only [List.headD_nil] at hn
      dsimp only
      rw [if_pos hn]
      by_cases hb : h.device_write_blocked <;>
        simp [hb, devSetWritableInterest, hc]
    | cons c t =>
      rw [hc] at hn
      simp only [List.headD_cons] at hn
      dsimp only
      rw [if_pos hn]
      by_cases hb : h.device_write_blocked <;>
        simp [hb, devSetWritableInterest]

/-- C1 witness: a device that accepts 2 of 4 bytes buffers exactly the last
two and blocks; a device that accepts everything leaves the hub unchanged. -/
theorem c1_try_device_write_conserves_witness :
    (try_device_write ⟨false, [9], false, true, false, some (true, false), [2]⟩
        [10, 20, 30, 40]).1.pending_device_write = [9] ++ [30, 40] ∧
    try_device_write ⟨false, [], false, true, false, some (true, false), [4]⟩
        [10, 20, 30, 40] =
      (⟨false, [], false, true, false, some (true, false), []⟩, false) := by
  constructor
  · exact ((c1_try_device_write_conserves
      ⟨false, [9], false, true, false, some (true, false), [2]⟩
      [10, 20, 30, 40]).2.1 (by decide)).1
  · exact (c1_try_device_write_conserves
      ⟨false, [], false, true, false, some (true, false), [4]⟩
      [10, 20, 30, 40]).1 (by decide)

/-- C3: while `device_write_blocked` is set the hub reads from no client:
a readiness event for a client token is ignored outright (the script is
returned untouched); `drain_client` stops before the next read once the
flag becomes true mid-drain; and the relief sweep
`drain_pending_client_data` stops at the first client whose drain re-sets
the flag, leaving the remaining clients untouched. -/
theorem c3_no_client_reads_while_blocked :
    (∀ (h : Hub) (reads : List ClientRead), h.device_write_blocked = true →
      handle_client_event h reads = (h, reads)) ∧
    (∀ (h : Hub) (res : IoResult) (rs : List ClientRead), res ≠ .none →
      (handle_read_result h res).device_write_blocked = true →
      drain_client h (.ok res :: rs) = (handle_read_result h res, rs)) ∧
    (∀ (h : Hub) (c : List ClientRead) (cs : List (List ClientRead)),
      (drain_client h c).1.device_write_blocked = true →
      drain_pending_client_data h (c :: cs) = (drain_client h c).1) := by
  refine ⟨?_, fun h res rs => drain_client_stop h res rs, ?_⟩
  · intro h reads hb
    unfold handle_client_event
    simp [hb]
  · intro h c cs hb
    simp only [drain_pending_client_data]
    simp [hb]

/-- C3 witness: a blocked hub ignores a client event; a drain that blocks
mid-script stops with the rest unread; a sweep stops after the first
blocking client. -/
theorem c3_no_client_reads_while_blocked_witness :
    handle_client_event ⟨true, [5], false, true, false, some (true, false), [9]⟩
        [.ok (.data [1]), .ok .none] =
      (⟨true, [5], false, true, false, some (true, false), [9]⟩,
        [.ok (.data [1]), .ok .none]) ∧
    drain_client ⟨false, [], false, true, false, some (true, false), [0]⟩
        [.ok (.data [7]), .ok (.data [8])] =
      (handle_read_result ⟨false, [], false, true, false, some (true, false), [0]⟩
        (.data [7]), [.ok (.data [8])]) ∧
    drain_pending_client_data ⟨false, [], false, true, false, some (true, false), [0]⟩
        [[.ok (.data [7])], [.ok (.data [8])]] =
      (drain_client ⟨false, [], false, true, false, some (true, false), [0]⟩
        [.ok (.data [7])]).1 := by
  refine ⟨c3_no_client_reads_while_blocked.1 _ _ rfl, ?_, ?_⟩
  · exact c3_no_client_reads_while_blocked.2.1 _ (.data [7]) _ (by decide) (by decide)
  · exact c3_no_client_reads_while_blocked.2.2 _ _ _ (by decide)

/-- C9 (code bug in `config.rs`): the snapshot's `KeybindConfig::parse_line`
only accepts boolean `set` values, so `set charmap-imap crlf` makes the
whole file fail to parse and `load` substitutes the defaults — while
`CharmapFilter::configure` (and its own unit test) expects exactly such a
string-valued setting and would configure the `crlf` mapping from it.  The
spec, `charmap.rs`, `timestamp.rs` and `main.rs` all treat `charmap-imap`/
`charmap-omap` as recognized string settings (`charmap.rs` even imports the
`SettingValue` type that this `config.rs` does not define), so the boolean-only
`set` arm is the slip. -/
theorem c9_charmap_setting_rejected_by_config :
    KeybindConfig.parse "set charmap-imap crlf" =
      Except.error "Line 1: Invalid boolean value: crlf" ∧
    KeybindConfig.loadFromContent "set charmap-imap crlf" = KeybindConfig.default ∧
    KeybindConfig.default.settings = [] ∧
    (CharmapFilter.configure CharmapFilter.new
      [("charmap-imap", SettingValue.strVal "crlf")]).imap = [Mapping.crLf] ∧
    (CharmapFilter.configure CharmapFilter.new
      [("charmap-imap", SettingValue.strVal "crlf")]).enabled = true := by
  refine ⟨by decide, by decide, by decide, by decide, by decide⟩

/-- C10: an accepted TCP client whose peer closed the connection reads
`Ok(0)`, which `TcpClient::read` maps to `Ok(IoResult::None)` with the
client left fully unchanged (still connected), so the hub's reaping pass
keeps it; would-block reads, successful reads, successful writes and
successful flushes likewise never change `connected`; only a read or write
error, a flush error, or an explicit `disconnect` closes the client. -/
theorem c10_eof_keeps_client_connected :
    (∀ c : TcpClient, TcpClient.read c (.okRead []) = (.ok .none, c)) ∧
    (∀ (c : TcpClient) (r : StreamRead), r ≠ .err → (TcpClient.read c r).2 = c) ∧
    (∀ (c : TcpClient) (buf : List Nat) (n : Nat),
      (TcpClient.write c buf (.okWrote n)).2 = c) ∧
    (∀ c : TcpClient, TcpClient.flush c true = c) ∧
    (∀ c : TcpClient, (TcpClient.read c .err).2.connected = false ∧
      (TcpClient.write c [] .err).2.connected = false ∧
      (TcpClient.flush c false).connected = false ∧
      (TcpClient.disconnect c).connected = false) ∧
    (∀ (cs : List (Nat × TcpClient)) (t : Nat) (c : TcpClient),
      (t, c) ∈ cs → c.connected = true →
      (t, c) ∈ (reapBy (fun c : TcpClient => c.connected) cs).1) := by
  refine ⟨fun c => rfl, ?_, fun c buf n => rfl, fun c => rfl, ?_, ?_⟩
  · intro c r hr
    cases r with
    | okRead bs => cases bs <;> rfl
    | wouldBlock => rfl
    | err => exact absurd rfl hr
  · intro c
    exact ⟨rfl, rfl, rfl, rfl⟩
  · intro cs t c hm hc
    unfold reapBy
    simp only [List.mem_filter]
    exact ⟨hm, by simpa using hc⟩

/-- C10 witness: EOF on a connected client, then the reaping pass keeps it. -/
theorem c10_eof_keeps_client_connected_witness :
    TcpClient.read ⟨true⟩ (.okRead []) = (.ok .none, ⟨true⟩) ∧
    (TcpClient.read ⟨true⟩ .wouldBlock).2 = ⟨true⟩ ∧
    ((3 : Nat), (⟨true⟩ : TcpClient)) ∈
      (reapBy (fun c : TcpClient => c.connected) [((3 : Nat), (⟨true⟩ : TcpClient))]).1 := by
  refine ⟨c10_eof_keeps_client_connected.1 ⟨true⟩, ?_, ?_⟩
  · exact c10_eof_keeps_client_connected.2.1 ⟨true⟩ .wouldBlock (by decide)
  · exact c10_eof_keeps_client_connected.2.2.2.2.2 _ 3 ⟨true⟩ (by decide) rfl

/-- C5 counterexample: starting from a freshly connected device (registered
READABLE-only), a single partial write sets `device_write_blocked` while the
poll registry still has no WRITABLE interest for the device — because every
device endpoint implements `set_writable_interest` with the no-op trait
default — so `blocked ⇒ WRITABLE registered` fails; and a TCP device
connect-in-progress registers READABLE|WRITABLE while the flag is clear, so
the converse fails too. -/
theorem c5_counterexample :
    ((try_device_write (device_connect_step (Hub.init [0]) .success) [7]).1.device_write_blocked
        = true ∧
     (try_device_write (device_connect_step (Hub.init [0]) .success) [7]).1.devInterest
        = some (true, false)) ∧
    ((device_connect_step (Hub.init []) .inProgress).device_write_blocked = false ∧
     (device_connect_step (Hub.init []) .inProgress).devInterest = some (true, true)) := by
  decide

/-- C5 amended: the hub *requests* WRITABLE interest exactly when
`device_write_blocked` transitions (on in `try_device_write`, off in the
relief path), but every device endpoint uses the no-op trait default for
`set_writable_interest`, so the registered interest never changes on any
backpressure path; after teardown the flag stays true while the device is
deregistered entirely, and a TCP connect-in-progress holds WRITABLE interest
with the flag clear — hence the flag and the registered WRITABLE interest
are independent, not equivalent. -/
theorem c5_interest_request_is_noop :
    (∀ (h : Hub) (w : Bool), devSetWritableInterest h w = h) ∧
    (∀ (h : Hub) (b : List Nat),
      (try_device_write h b).1.devInterest = h.devInterest) ∧
    (∀ (h : Hub) (cs : List (List ClientRead)),
      (backpressure_relief h cs).devInterest = h.devInterest) ∧
    (∀ h : Hub, h.devZombie = true →
      (device_teardown h).devInterest = Option.none ∧
      (device_teardown h).device_write_blocked = h.device_write_blocked) ∧
    (∀ h : Hub, h.devConnected = false →
      (device_connect_step h .inProgress).devInterest = some (true, true) ∧
      (device_connect_step h .inProgress).device_write_blocked
        = h.device_write_blocked) := by
  refine ⟨fun h w => rfl, fun h b => (try_device_write_interest h b).1, ?_, ?_, ?_⟩
  · intro h cs
    unfold backpressure_relief devSetWritableInterest forward_to_device
    dsimp only
    split
    · split
      · exact ((drain_pending_interest _ _).1.trans (try_device_write_interest _ _).1)
      · exact (try_device_write_interest _ _).1
    · split
      · exact (drain_pending_interest _ _).1
      · rfl
  · intro h hz
    unfold device_teardown
    simp [hz]
  · intro h hcon
    unfold device_connect_step
    simp [hcon]

/-- C5 amended witness: applying the amended statements at a concrete
blocked hub and a concrete zombie hub. -/
theorem c5_interest_request_is_noop_witness :
    devSetWritableInterest ⟨true, [4], false, true, false, some (true, false), []⟩ true
      = ⟨true, [4], false, true, false, some (true, false), []⟩ ∧
    (device_teardown ⟨true, [4], false, true, true, some (true, false), []⟩).devInterest
      = Option.none ∧
    (device_connect_step ⟨false, [], false, false, false, Option.none, []⟩
      .inProgress).devInterest = some (true, true) := by
  refine ⟨c5_interest_request_is_noop.1 _ true, ?_, ?_⟩
  · exact (c5_interest_request_is_noop.2.2.2.1 _ rfl).1
  · exact (c5_interest_request_is_noop.2.2.2.2 _ rfl).1

/-- C2 counterexample: a reachable trace violating the invariant at a stable
point of the run loop.  Start from `IoHub::new` with a device that accepts
nothing (not yet connected: its `write` fails, so `write_all` returns 0);
a client readiness event forwards one byte, which lands in
`pending_device_write` with the flag set; the next run-loop iteration finds
no zombie (nothing clears the buffer) and the device connect succeeds, which
clears `device_write_blocked` but leaves `pending_device_write` non-empty. -/
theorem c2_counterexample :
    (device_connect_step (device_teardown
        (handle_client_event (Hub.init [0]) [.ok (.data [42]), .ok .none]).1)
      .success).pending_device_write = [42] ∧
    (device_connect_step (device_teardown
        (handle_client_event (Hub.init [0]) [.ok (.data [42]), .ok .none]).1)
      .success).device_write_blocked = false := by
  decide

/-- C2 amended: `pending_device_write ≠ [] → device_write_blocked` holds
after construction and is preserved by the partial-write path, by client
drains, by the relief path (which either fully flushes or re-sets the flag),
and by the teardown path (which clears the buffer); the device-reconnect
step preserves it only when `pending_device_write` is empty — bytes
forwarded while the device was disconnected survive a successful reconnect
with the flag cleared, which is exactly the counterexample. -/
theorem c2_pending_implies_blocked_amended :
    (∀ caps : List Nat, HubInv (Hub.init caps)) ∧
    (∀ (h : Hub) (b : List Nat), HubInv h → HubInv (try_device_write h b).1) ∧
    (∀ (h : Hub) (reads : List ClientRead), HubInv h →
      HubInv (drain_client h reads).1) ∧
    (∀ (h : Hub) (reads : List ClientRead), HubInv h →
      HubInv (handle_client_event h reads).1) ∧
    (∀ (h : Hub) (cs : List (List ClientRead)), HubInv (backpressure_relief h cs)) ∧
    (∀ h : Hub, HubInv h → HubInv (device_teardown h)) ∧
    (∀ (h : Hub) (outcome : ConnectOutcome), h.pending_device_write = [] →
      HubInv (device_connect_step h outcome)) := by
  refine ⟨?_, try_device_write_inv, drain_client_inv, ?_, backpressure_relief_inv,
    ?_, ?_⟩
  · intro caps hp
    simp [Hub.init] at hp
  · intro h reads hi
    unfold handle_client_event
    split
    · exact drain_client_inv h reads hi
    · exact hi
  · intro h hi
    unfold device_teardown
    split
    · intro hp
      simp at hp
    · exact hi
  · intro h outcome hp
    unfold device_connect_step
    intro hne
    exfalso
    apply hne
    split
    · exact hp
    · cases outcome <;> simp [hp]

/-- C2 amended witness: the invariant holds initially and survives a
concrete partial write, a drain, a relief, a teardown, and a reconnect from
an empty buffer. -/
theorem c2_pending_implies_blocked_amended_witness :
    HubInv (Hub.init [0]) ∧
    HubInv (try_device_write (Hub.init [0]) [42]).1 ∧
    HubInv (backpressure_relief ⟨true, [5], false, true, false, some (true, false), [9]⟩ []) ∧
    HubInv (device_teardown ⟨true, [5], false, true, true, some (true, false), []⟩) ∧
    HubInv (device_connect_step ⟨true, [], false, false, false, Option.none, []⟩ .success) := by
  refine ⟨c2_pending_implies_blocked_amended.1 [0],
    c2_pending_implies_blocked_amended.2.1 _ [42] (by intro hp; simp [Hub.init] at hp),
    c2_pending_implies_blocked_amended.2.2.2.2.1 _ [],
    c2_pending_implies_blocked_amended.2.2.2.2.2.1 _ (fun _ => rfl),
    c2_pending_implies_blocked_amended.2.2.2.2.2.2 _ .success rfl⟩

theorem utf8Encode_ne_nil (c : Nat) : utf8Encode c ≠ [] := by
  unfold utf8Encode
  split_ifs <;> simp

theorem some_append_cons_ne (pre l : List Nat) (x : Nat)
    (h : some (pre ++ x :: l) = some ([] : List Nat)) : False := by
  injection h with h
  have := congrArg List.length h
  simp at this

theorem key_event_to_bytes_ne_nil (ev : KeyEvent) (bs : List Nat)
    (h : key_event_to_bytes ev = some bs) : bs ≠ [] := by
  intro hnil
  subst hnil
  obtain ⟨key, mods⟩ := ev
  unfold key_event_to_bytes at h
  cases key <;> dsimp only at h
  case char c =>
    by_cases hc : mods.ctrl = true
    · rw [if_pos hc] at h
      by_cases hl : is_ascii_lowercase (to_ascii_lowercase c) = true
      · rw [if_pos hl] at h
        exact some_append_cons_ne _ _ _ h
      · rw [if_neg hl] at h
        exact Option.noConfusion h
    · rw [if_neg hc] at h
      injection h with h
      exact utf8Encode_ne_nil c (List.append_eq_nil.mp h).2
  case f n =>
    iterate 12
      (rcases ite_eq_iff.mp h with ⟨_, h⟩ | ⟨_, h⟩ <;>
        try exact some_append_cons_ne _ _ _ h)
    exact Option.noConfusion h
  all_goals exact some_append_cons_ne _ _ _ h

/-- C7: the key-binding state machine.  In `Normal`: a direct binding emits
its `Action` (state unchanged); otherwise the configured prefix key emits
`Consumed` and enters `AwaitingPrefixCommand` recording the entry time;
otherwise the event's encoding is passed through.  In
`AwaitingPrefixCommand`: the state always returns to `Normal`; a prefix
binding emits its `Action`; otherwise the prefix's encoding followed by the
event's encoding is passed through. -/
theorem c7_processor_transitions (cfg : KeybindConfig) (now : Nat)
    (ps : ProcState) (k : KeyEvent) :
    (ps.state = .normal →
      (∀ a, List.lookup k cfg.direct_bindings = some a →
        handle_key_event cfg now ps k = (some (.action a), ps)) ∧
      (List.lookup k cfg.direct_bindings = Option.none → cfg.pfx = some k →
        handle_key_event cfg now ps k =
          (some .consumed, ⟨.awaitingPrefixCommand, now⟩)) ∧
      (∀ bs, List.lookup k cfg.direct_bindings = Option.none → cfg.pfx ≠ some k →
        key_event_to_bytes k = some bs →
        handle_key_event cfg now ps k = (some (.passthrough bs), ps))) ∧
    (ps.state = .awaitingPrefixCommand →
      ((handle_key_event cfg now ps k).2.state = .normal) ∧
      (∀ a, List.lookup k cfg.prefix_bindings = some a →
        handle_key_event cfg now ps k =
          (some (.action a), { ps with state := .normal })) ∧
      (∀ p bp bk, List.lookup k cfg.prefix_bindings = Option.none →
        cfg.pfx = some p → key_event_to_bytes p = some bp →
        key_event_to_bytes k = some bk →
        handle_key_event cfg now ps k =
          (some (.passthrough (bp ++ bk)), { ps with state := .normal }))) := by
  constructor
  · intro hs
    unfold handle_key_event
    rw [hs]
    refine ⟨?_, ?_, ?_⟩
    · intro a ha
      unfold handle_normal
      rw [ha]
    · intro hd hp
      unfold handle_normal
      rw [hd, hp]
      simp
    · intro bs hd hp he
      unfold handle_normal
      rw [hd]
      cases hpfx : cfg.pfx with
      | none => simp [he]
      | some p =>
        rw [hpfx] at hp
        have hkp : k ≠ p := fun hkp => hp (by rw [hkp])
        simp [hkp, he]
  · intro hs
    unfold handle_key_event
    rw [hs]
    refine ⟨?_, ?_, ?_⟩
    · unfold handle_prefix_mode
      dsimp only
      cases List.lookup k cfg.prefix_bindings with
      | some a => rfl
      | none =>
        dsimp only
        split <;> rfl
    · intro a ha
      unfold handle_prefix_mode
      rw [ha]
    · intro p bp bk hl hp hep hek
      unfold handle_prefix_mode
      rw [hl, hp]
      dsimp only
      rw [hep, hek]
      dsimp only [Option.getD_some]
      rw [if_neg]
      intro hnil
      exact key_event_to_bytes_ne_nil k bk hek (List.append_eq_nil.mp hnil).2

/-- C7 witness: with the default configuration, Ctrl+Q hits the direct map,
Ctrl+A enters prefix mode, `x` passes through in normal mode, `q` in prefix
mode hits the prefix map, and `x` in prefix mode passes through
`encode(Ctrl+A) ++ encode(x)`. -/
theorem c7_processor_transitions_witness :
    handle_key_event KeybindConfig.default 5 ⟨.normal, 0⟩ (KeyEvent.ctrl_char 113)
      = (some (.action .quit), ⟨.normal, 0⟩) ∧
    handle_key_event KeybindConfig.default 5 ⟨.normal, 0⟩ (KeyEvent.ctrl_char 97)
      = (some .consumed, ⟨.awaitingPrefixCommand, 5⟩) ∧
    handle_key_event KeybindConfig.default 5 ⟨.normal, 0⟩ (KeyEvent.charEv 120)
      = (some (.passthrough [120]), ⟨.normal, 0⟩) ∧
    handle_key_event KeybindConfig.default 5 ⟨.awaitingPrefixCommand, 2⟩
        (KeyEvent.charEv 113)
      = (some (.action (.send [0x11])), ⟨.normal, 2⟩) ∧
    handle_key_event KeybindConfig.default 5 ⟨.awaitingPrefixCommand, 2⟩
        (KeyEvent.charEv 120)
      = (some (.passthrough ([1] ++ [120])), ⟨.normal, 2⟩) := by
  refine ⟨?_, ?_, ?_, ?_, ?_⟩
  · exact ((c7_processor_transitions KeybindConfig.default 5 ⟨.normal, 0⟩
      (KeyEvent.ctrl_char 113)).1 rfl).1 .quit (by decide)
  · exact ((c7_processor_transitions KeybindConfig.default 5 ⟨.normal, 0⟩
      (KeyEvent.ctrl_char 97)).1 rfl).2.1 (by decide) (by decide)
  · exact ((c7_processor_transitions KeybindConfig.default 5 ⟨.normal, 0⟩
      (KeyEvent.charEv 120)).1 rfl).2.2 [120] (by decide) (by decide) (by decide)
  · exact ((c7_processor_transitions KeybindConfig.default 5 ⟨.awaitingPrefixCommand, 2⟩
      (KeyEvent.charEv 113)).2 rfl).2.1 (.send [0x11]) (by decide)
  · exact ((c7_processor_transitions KeybindConfig.default 5 ⟨.awaitingPrefixCommand, 2⟩
      (KeyEvent.charEv 120)).2 rfl).2.2 (KeyEvent.ctrl_char 97) [1] [120]
      (by decide) (by decide) (by decide) (by decide)

/-- C8 counterexample: with the default configuration (prefix Ctrl+A) and an
idle console, stdin delivering `0x01 'x'` produces the processed results
`[Consumed, Passthrough [0x01,'x']]`; `read()` pops the `Consumed`, which
converts to nothing, and returns `Ok(IoResult::None)` while the deliverable
`Passthrough [0x01,'x']` is still queued — so `None` does not mean "no
queued stage output remains". -/
theorem c8_counterexample :
    (Console.read ⟨KeybindConfig.default, ⟨.normal, 0⟩, [], [],
        ⟨TimestampFilter.new, CharmapFilter.new⟩⟩ (.okRead [1, 120]) 5).1
      = .ok IoResult.none ∧
    (Console.read ⟨KeybindConfig.default, ⟨.normal, 0⟩, [], [],
        ⟨TimestampFilter.new, CharmapFilter.new⟩⟩ (.okRead [1, 120]) 5).2.pending_results
      = [.passthrough [1, 120]] := by
  decide

/-- C8 amended: each `Console::read` call returns at most one stage output,
queuing the rest: a deliverable queued result at the pop position is
returned (stdin is not even read) with the remainder queued; with an empty
queue, would-block/EOF/error stdin outcomes yield `None`/`None`/error; and
fresh stdin bytes are processed with only the *first* result popped — if it
converts to a deliverable output it is returned, but if it is `Consumed` (or
a locally-handled `FilterToggle`) the call returns `None` even though the
remaining processed results stay queued, so `None` does not imply an empty
queue. -/
theorem c8_read_one_output_amended :
    (∀ (c : Console) (stdin : StdinRead) (now : Nat) (r : KeybindResult)
        (rest : List KeybindResult) (out : IoResult) (fc' : FilterChain),
      c.pending_results = r :: rest →
      keybind_result_to_read_result c.filter_chain r = (some out, fc') →
      Console.read c stdin now =
        (.ok out, { c with pending_results := rest, filter_chain := fc' })) ∧
    (∀ (c : Console) (now : Nat), c.pending_results = [] →
      Console.read c .wouldBlock now = (.ok .none, c) ∧
      Console.read c (.okRead []) now = (.ok .none, c) ∧
      Console.read c .err now = (.error (), c)) ∧
    (∀ (c : Console) (now : Nat) (b : Nat) (bs : List Nat)
        (results : List KeybindResult) (ps' : ProcState) (buf' : List Nat),
      c.pending_results = [] →
      KeybindProcessor.process c.cfg now c.ps c.parserBuf (b :: bs) =
        (results, ps', buf') →
      (results = [] →
        Console.read c (.okRead (b :: bs)) now =
          (.ok .none, { c with
            ps := ps'
            parserBuf := buf'
            pending_results := [] })) ∧
      (∀ r rest out fc', results = r :: rest →
        keybind_result_to_read_result c.filter_chain r = (some out, fc') →
        Console.read c (.okRead (b :: bs)) now =
          (.ok out, { c with
            ps := ps'
            parserBuf := buf'
            pending_results := rest
            filter_chain := fc' })) ∧
      (∀ r rest fc', results = r :: rest →
        keybind_result_to_read_result c.filter_chain r = (Option.none, fc') →
        Console.read c (.okRead (b :: bs)) now =
          (.ok .none, { c with
            ps := ps'
            parserBuf := buf'
            pending_results := rest
            filter_chain := fc' }))) := by
  refine ⟨?_, ?_, ?_⟩
  · intro c stdin now r rest out fc' hp hconv
    unfold Console.read
    rw [hp]
    dsimp only
    rw [hconv]
  · intro c now hp
    unfold Console.read
    rw [hp]
    exact ⟨rfl, rfl, rfl⟩
  · intro c now b bs results ps' buf' hp hproc
    refine ⟨?_, ?_, ?_⟩
    · intro hres
      rw [hres] at hproc
      unfold Console.read
      rw [hp]
      dsimp only
      rw [hproc, hp]
      simp
    · intro r rest out fc' hres hconv
      rw [hres] at hproc
      unfold Console.read
      rw [hp]
      dsimp only
      rw [hproc, hp]
      dsimp only
      rw [List.append_nil]
      dsimp only
      rw [hconv]
    · intro r rest fc' hres hconv
      rw [hres] at hproc
      unfold Console.read
      rw [hp]
      dsimp only
      rw [hproc, hp]
      dsimp only
      rw [List.append_nil]
      dsimp only
      rw [hconv]

/-- C8 amended witness: a queued passthrough is delivered with the rest
queued; an empty-queue would-block read yields `None`; fresh bytes deliver
their first processed result. -/
theorem c8_read_one_output_amended_witness :
    Console.read ⟨KeybindConfig.default, ⟨.normal, 0⟩, [],
        [.passthrough [104], .consumed], ⟨TimestampFilter.new, CharmapFilter.new⟩⟩
        .wouldBlock 5 =
      (.ok (.data [104]),
        ⟨KeybindConfig.default, ⟨.normal, 0⟩, [], [.consumed],
          ⟨TimestampFilter.new, CharmapFilter.new⟩⟩) ∧
    Console.read ⟨KeybindConfig.default, ⟨.normal, 0⟩, [], [],
        ⟨TimestampFilter.new, CharmapFilter.new⟩⟩ .wouldBlock 5 =
      (.ok .none, ⟨KeybindConfig.default, ⟨.normal, 0⟩, [], [],
        ⟨TimestampFilter.new, CharmapFilter.new⟩⟩) ∧
    Console.read ⟨KeybindConfig.default, ⟨.normal, 0⟩, [], [],
        ⟨TimestampFilter.new, CharmapFilter.new⟩⟩ (.okRead [104]) 5 =
      (.ok (.data [104]),
        ⟨KeybindConfig.default, ⟨.normal, 0⟩, [], [],
          ⟨TimestampFilter.new, CharmapFilter.new⟩⟩) := by
  refine ⟨?_, ?_, ?_⟩
  · exact c8_read_one_output_amended.1
      ⟨KeybindConfig.default, ⟨.normal, 0⟩, [], [.passthrough [104], .consumed],
        ⟨TimestampFilter.new, CharmapFilter.new⟩⟩
      .wouldBlock 5 (.passthrough [104]) [.consumed] (.data [104])
      ⟨TimestampFilter.new, CharmapFilter.new⟩ rfl (by decide)
  · exact (c8_read_one_output_amended.2.1
      ⟨KeybindConfig.default, ⟨.normal, 0⟩, [], [],
        ⟨TimestampFilter.new, CharmapFilter.new⟩⟩ 5 rfl).1
  · have h3 := c8_read_one_output_amended.2.2
      ⟨KeybindConfig.default, ⟨.normal, 0⟩, [], [],
        ⟨TimestampFilter.new, CharmapFilter.new⟩⟩ 5 104 []
      [.passthrough [104]] ⟨.normal, 0⟩ [] rfl (by decide)
    exact h3.2.1 (.passthrough [104]) [] (.data [104])
      ⟨TimestampFilter.new, CharmapFilter.new⟩ rfl (by decide)

/-! ### Broadcast lemmas for C4 -/

/-- The socket-write environment of real TCP: a `stream.write` call on a
non-empty buffer either returns an error or transfers at least one byte —
mio's `TcpStream::write` never returns `Ok(0)` for a non-empty buffer. -/
def GoodScript (c : BClient) : Prop :=
  ∀ i, c.script i ≠ some 0

theorem clientWriteAllF_spec (fuel : Nat) :
    ∀ (c : BClient) (buf : List Nat), buf.length ≤ fuel →
    GoodScript c → c.connected = true →
    (clientWriteAllF fuel c buf).script = c.script ∧
    ((clientWriteAllF fuel c buf).connected = true →
        (clientWriteAllF fuel c buf).rx = c.rx ++ buf) ∧
    ((clientWriteAllF fuel c buf).connected = false →
        (clientWriteAllF fuel c buf).rx.length < c.rx.length + buf.length) := by
  induction fuel with
  | zero =>
    intro c buf hlen hg hc
    have : buf = [] := List.length_eq_zero.mp (Nat.le_zero.mp hlen)
    subst this
    refine ⟨rfl, fun _ => (List.append_nil c.rx).symm, fun hfalse => ?_⟩
    rw [show clientWriteAllF 0 c [] = c from rfl, hc] at hfalse
    exact absurd hfalse (by simp)
  | succ fuel ih =>
    intro c buf hlen hg hc
    cases buf with
    | nil =>
      refine ⟨rfl, fun _ => (List.append_nil c.rx).symm, fun hfalse => ?_⟩
      rw [show clientWriteAllF (fuel + 1) c [] = c from rfl, hc] at hfalse
      exact absurd hfalse (by simp)
    | cons b bs =>
      rw [show clientWriteAllF (fuel + 1) c (b :: bs) =
        (match c.script c.widx with
          | Option.none => { c with widx := c.widx + 1, connected := false }
          | some n =>
            let k := min n (b :: bs).length
            if k = 0 then { c with widx := c.widx + 1 }
            else clientWriteAllF fuel
              { c with widx := c.widx + 1, rx := c.rx ++ (b :: bs).take k }
              ((b :: bs).drop k) : BClient) from rfl]
      cases hscr : c.script c.widx with
      | none =>
        refine ⟨rfl, fun hconn => absurd hconn (by simp), fun _ => ?_⟩
        show c.rx.length < c.rx.length + (b :: bs).length
        exact Nat.lt_add_of_pos_right (Nat.succ_pos _)
      | some n =>
        have hn : n ≠ 0 := fun h0 => hg c.widx (h0 ▸ hscr)
        have hk : min n (b :: bs).length ≠ 0 := by
          have hbl : (b :: bs).length = bs.length + 1 := rfl
          omega
        dsimp only
        rw [if_neg hk]
        set k := min n (b :: bs).length with hkdef
        have hkle : k ≤ (b :: bs).length := Nat.min_le_right _ _
        have hlen2 : ((b :: bs).drop k).length ≤ fuel := by
          rw [List.length_drop]
          have hk1 : 1 ≤ k := Nat.one_le_iff_ne_zero.mpr hk
          omega
        have ih2 := ih { c with widx := c.widx + 1, rx := c.rx ++ (b :: bs).take k }
          ((b :: bs).drop k) hlen2 hg hc
        refine ⟨ih2.1, fun hconn => ?_, fun hfalse => ?_⟩
        · rw [ih2.2.1 hconn]
          dsimp only
          rw [List.append_assoc, List.take_append_drop]
        · have := ih2.2.2 hfalse
          dsimp only at this
          rw [List.length_append, List.length_take, List.length_drop] at this
          omega

/-- `write_all` on a connected client with a realistic socket: if the client
stays connected it accepted the whole buffer; if it was closed it accepted
strictly less. -/
theorem write_all_client_spec (c : BClient) (buf : List Nat)
    (hg : GoodScript c) (hc : c.connected = true) :
    (write_all_client c buf).script = c.script ∧
    ((write_all_client c buf).connected = true →
        (write_all_client c buf).rx = c.rx ++ buf) ∧
    ((write_all_client c buf).connected = false →
        (write_all_client c buf).rx.length < c.rx.length + buf.length) :=
  clientWriteAllF_spec buf.length c buf (le_refl _) hg hc

theorem client_through_reads_disconnected (c : BClient) (reads : List DevRead)
    (hc : c.connected = false) : client_through_reads c reads = c := by
  induction reads with
  | nil => rfl
  | cons r rs ih =>
    cases r with
    | data buf =>
      show client_through_reads (broadcast_data buf c) rs = c
      unfold broadcast_data
      rw [hc]
      simpa using ih
    | action => exact ih
    | none => rfl
    | err => rfl

theorem client_through_reads_spec (reads : List DevRead) :
    ∀ c : BClient, GoodScript c → c.connected = true →
    ((client_through_reads c reads).connected = true →
      (client_through_reads c reads).rx =
        c.rx ++ (processed_data reads).flatten) ∧
    ((client_through_reads c reads).connected = false →
      (client_through_reads c reads).rx.length <
        c.rx.length + ((processed_data reads).flatten).length) := by
  induction reads with
  | nil =>
    intro c hg hc
    refine ⟨fun _ => by simp [client_through_reads, processed_data], fun hfalse => ?_⟩
    rw [show client_through_reads c [] = c from rfl, hc] at hfalse
    exact absurd hfalse (by simp)
  | cons r rs ih =>
    intro c hg hc
    cases r with
    | data buf =>
      have hbd : broadcast_data buf c = write_all_client c buf := by
        unfold broadcast_data
        rw [hc]
        simp
      have hstep : client_through_reads c (.data buf :: rs) =
          client_through_reads (write_all_client c buf) rs := by
        rw [show client_through_reads c (.data buf :: rs) =
          client_through_reads (broadcast_data buf c) rs from rfl, hbd]
      rw [hstep]
      have hwa := write_all_client_spec c buf hg hc
      cases hconn : (write_all_client c buf).connected with
      | true =>
        have hgw : GoodScript (write_all_client c buf) := by
          intro i
          rw [hwa.1]
          exact hg i
        have ihw := ih (write_all_client c buf) hgw hconn
        have hrx := hwa.2.1 hconn
        refine ⟨fun ht => ?_, fun hf => ?_⟩
        · rw [ihw.1 ht, hrx, processed_data, List.flatten_cons, List.append_assoc]
        · have := ihw.2 hf
          rw [hrx, List.length_append] at this
          rw [processed_data, List.flatten_cons, List.length_append]
          omega
      | false =>
        rw [client_through_reads_disconnected _ _ hconn]
        refine ⟨fun ht => absurd ht (by rw [hconn]; simp), fun _ => ?_⟩
        have := hwa.2.2 hconn
        rw [processed_data, List.flatten_cons, List.length_append]
        omega
    | action =>
      show ((client_through_reads c rs).connected = true → _) ∧ _
      rw [show processed_data (.action :: rs) = processed_data rs from rfl]
      exact ih c hg hc
    | none =>
      refine ⟨fun _ => by simp [client_through_reads, processed_data], fun hfalse => ?_⟩
      rw [show client_through_reads c (.none :: rs) = c from rfl, hc] at hfalse
      exact absurd hfalse (by simp)
    | err =>
      refine ⟨fun _ => by simp [client_through_reads, processed_data], fun hfalse => ?_⟩
      rw [show client_through_reads c (.err :: rs) = c from rfl, hc] at hfalse
      exact absurd hfalse (by simp)

/-- C4: during a device-readable event every `Data(buf)` is offered to every
currently-connected client by one best-effort `write_all` with no per-client
buffering: a client that is still connected afterwards received exactly the
concatenation of all broadcast buffers (appended to its previous bytes), and
conversely a client whose socket errored or did not consume everything is
not-connected afterwards, is excluded from the surviving instance map and
its token is deregistered in the reaping phase of the same `handle_event`
call.  The hypothesis `GoodScript` is real-TCP semantics: a socket write on
a non-empty buffer transfers at least one byte or fails. -/
theorem c4_broadcast_closes_slow_clients (cs : List (Nat × BClient))
    (reads : List DevRead) (t : Nat) (c : BClient)
    (hmem : (t, c) ∈ cs) (hg : GoodScript c) (hc : c.connected = true) :
    (t, client_through_reads c reads) ∈ device_read_loop reads cs ∧
    ((client_through_reads c reads).connected = true ↔
      (client_through_reads c reads).rx =
        c.rx ++ (processed_data reads).flatten) ∧
    ((client_through_reads c reads).connected = false →
      (t, client_through_reads c reads) ∉
        (reapBy (fun c : BClient => c.connected) (device_read_loop reads cs)).1 ∧
      t ∈ (reapBy (fun c : BClient => c.connected) (device_read_loop reads cs)).2) := by
  have hspec := client_through_reads_spec reads c hg hc
  have hmem' : (t, client_through_reads c reads) ∈ device_read_loop reads cs := by
    unfold device_read_loop
    exact List.mem_map.mpr ⟨(t, c), hmem, rfl⟩
  refine ⟨hmem', ⟨hspec.1, fun hrx => ?_⟩, fun hfalse => ⟨?_, ?_⟩⟩
  · cases hconn : (client_through_reads c reads).connected with
    | true => rfl
    | false =>
      have := hspec.2 hconn
      rw [hrx, List.length_append] at this
      omega
  · intro hkept
    unfold reapBy at hkept
    have := (List.mem_filter.mp hkept).2
    dsimp only at this
    rw [hfalse] at this
    simp at this
  · unfold reapBy
    refine List.mem_map.mpr ⟨(t, client_through_reads c reads), ?_, rfl⟩
    refine List.mem_filter.mpr ⟨hmem', ?_⟩
    dsimp only
    rw [hfalse]
    simp

/-- C4 witness: one client accepts everything and survives with the full
byte stream; a client whose socket errors on the second write is closed,
dropped from the map and its token reaped. -/
theorem c4_broadcast_closes_slow_clients_witness :
    ((client_through_reads ⟨true, fun _ => some 2, 0, []⟩
        [.data [7, 8], .data [9], .none]).connected = true ↔
      (client_through_reads ⟨true, fun _ => some 2, 0, []⟩
        [.data [7, 8], .data [9], .none]).rx =
        [] ++ ([[7, 8], [9]] : List (List Nat)).flatten) ∧
    ((client_through_reads ⟨true, fun i => if i = 0 then some 2 else Option.none, 0, []⟩
        [.data [7, 8], .data [9], .none]).connected = false →
      (3 : Nat) ∈ (reapBy (fun c : BClient => c.connected)
        (device_read_loop [.data [7, 8], .data [9], .none]
          [(3, ⟨true, fun i => if i = 0 then some 2 else Option.none, 0, []⟩)])).2) := by
  constructor
  · exact (c4_broadcast_closes_slow_clients
      [(3, ⟨true, fun _ => some 2, 0, []⟩)] [.data [7, 8], .data [9], .none]
      3 ⟨true, fun _ => some 2, 0, []⟩ (by simp) (fun i => by simp) rfl).2.1
  · intro hfalse
    exact (c4_broadcast_closes_slow_clients
      [(3, ⟨true, fun i => if i = 0 then some 2 else Option.none, 0, []⟩)]
      [.data [7, 8], .data [9], .none]
      3 ⟨true, fun i => if i = 0 then some 2 else Option.none, 0, []⟩
      (by simp) (fun i => by by_cases hi : i = 0 <;> simp [hi]) rfl).2.2 hfalse |>.2

/-! ### The canonical key grammar for C6

`encode(parse(bytes)) = bytes` fails on the full accepted grammar (alias
encodings such as `ESC O H` for Home re-encode as `ESC [ H`, and CSI
modifier parameters are dropped).  The round trip does hold on the
*canonical* sub-grammar: concatenations of the byte sequences
`key_event_to_bytes` itself produces for the events below. -/

/-- The canonically-encoded key events: Ctrl+letter (a..z, excluding `i` and
`m`, whose codes parse back as Tab/Enter), plain and Alt printable
characters (Alt excluding `[` and `O`, which would start CSI/SS3),
Ctrl+Alt+letter, the named keys without modifiers, and F1..F12 without
modifiers.  `Escape` is excluded: a lone ESC is swallowed by a following
sequence. -/
def canonicalEvent (ev : KeyEvent) : Bool :=
  match ev.key, ev.modifiers with
  | .char c, ⟨true, false, false⟩ =>
    decide (97 ≤ c ∧ c ≤ 122 ∧ c ≠ 105 ∧ c ≠ 109)
  | .char c, ⟨true, true, false⟩ => decide (97 ≤ c ∧ c ≤ 122)
  | .char c, ⟨false, false, false⟩ => decide (32 ≤ c ∧ c ≤ 126)
  | .char c, ⟨false, true, false⟩ => decide (32 ≤ c ∧ c ≤ 126 ∧ c ≠ 91 ∧ c ≠ 79)
  | .f n, ⟨false, false, false⟩ => decide (1 ≤ n ∧ n ≤ 12)
  | .escape, _ => false
  | .enter, ⟨false, false, false⟩ => true
  | .tab, ⟨false, false, false⟩ => true
  | .backspace, ⟨false, false, false⟩ => true
  | .up, ⟨false, false, false⟩ => true
  | .down, ⟨false, false, false⟩ => true
  | .left, ⟨false, false, false⟩ => true
  | .right, ⟨false, false, false⟩ => true
  | .home, ⟨false, false, false⟩ => true
  | .endK, ⟨false, false, false⟩ => true
  | .pageUp, ⟨false, false, false⟩ => true
  | .pageDown, ⟨false, false, false⟩ => true
  | .insert, ⟨false, false, false⟩ => true
  | .delete, ⟨false, false, false⟩ => true
  | _, _ => false

theorem enc_ctrl_char (c : Nat) (h1 : 97 ≤ c) (h2 : c ≤ 122) :
    key_event_to_bytes ⟨.char c, ⟨true, false, false⟩⟩ = some [c - 97 + 1] := by
  unfold key_event_to_bytes to_ascii_lowercase is_ascii_lowercase
  dsimp only
  rw [if_neg (by omega : ¬(65 ≤ c ∧ c ≤ 90))]
  rw [if_pos (decide_eq_true (by omega : 97 ≤ c ∧ c ≤ 122))]
  rfl

theorem enc_ctrl_alt_char (c : Nat) (h1 : 97 ≤ c) (h2 : c ≤ 122) :
    key_event_to_bytes ⟨.char c, ⟨true, true, false⟩⟩ = some [27, c - 97 + 1] := by
  unfold key_event_to_bytes to_ascii_lowercase is_ascii_lowercase
  dsimp only
  rw [if_neg (by omega : ¬(65 ≤ c ∧ c ≤ 90))]
  rw [if_pos (decide_eq_true (by omega : 97 ≤ c ∧ c ≤ 122))]
  rfl

theorem enc_plain_char (c : Nat) (h2 : c ≤ 126) :
    key_event_to_bytes ⟨.char c, ⟨false, false, false⟩⟩ = some [c] := by
  unfold key_event_to_bytes utf8Encode
  dsimp only
  rw [if_pos (by omega : c < 128)]
  rfl

theorem enc_alt_char (c : Nat) (h2 : c ≤ 126) :
    key_event_to_bytes ⟨.char c, ⟨false, true, false⟩⟩ = some [27, c] := by
  unfold key_event_to_bytes utf8Encode
  dsimp only
  rw [if_pos (by omega : c < 128)]
  rfl

theorem parse_ctrl_char (c : Nat) (h1 : 97 ≤ c) (h2 : c ≤ 122)
    (h3 : c ≠ 105) (h4 : c ≠ 109) (rest : List Nat) :
    parse_bytes ((c - 97 + 1) :: rest) = .Key ⟨.char c, ⟨true, false, false⟩⟩ 1 := by
  unfold parse_bytes
  dsimp only
  rw [if_neg (by omega : ¬(c - 97 + 1 = 27)),
    if_pos (by omega : 1 ≤ c - 97 + 1 ∧ c - 97 + 1 ≤ 26),
    if_neg (by omega : ¬(c - 97 + 1 = 9)), if_neg (by omega : ¬(c - 97 + 1 = 13))]
  have he : c - 97 + 1 + 96 = c := by omega
  rw [he]
  rfl

theorem parse_plain_char (c : Nat) (h1 : 32 ≤ c) (h2 : c ≤ 126) (rest : List Nat) :
    parse_bytes (c :: rest) = .Key ⟨.char c, ⟨false, false, false⟩⟩ 1 := by
  unfold parse_bytes
  dsimp only
  rw [if_neg (by omega : ¬(c = 27)), if_neg (by omega : ¬(1 ≤ c ∧ c ≤ 26)),
    if_neg (by omega : ¬(c = 127)), if_pos (by omega : 32 ≤ c ∧ c < 127)]
  rfl

theorem parse_alt_char (c : Nat) (h1 : 32 ≤ c) (h2 : c ≤ 126) (h3 : c ≠ 91)
    (h4 : c ≠ 79) (rest : List Nat) :
    parse_bytes (27 :: c :: rest) = .Key ⟨.char c, ⟨false, true, false⟩⟩ 2 := by
  unfold parse_bytes parse_escape_sequence
  dsimp only
  rw [if_pos rfl, if_neg (by omega : ¬(c = 91)), if_neg (by omega : ¬(c = 79)),
    if_pos (by omega : 32 ≤ c ∧ c < 127)]
  rfl

theorem parse_ctrl_alt_char (c : Nat) (h1 : 97 ≤ c) (h2 : c ≤ 122) (rest : List Nat) :
    parse_bytes (27 :: (c - 97 + 1) :: rest) = .Key ⟨.char c, ⟨true, true, false⟩⟩ 2 := by
  unfold parse_bytes parse_escape_sequence
  dsimp only
  rw [if_pos rfl, if_neg (by omega : ¬(c - 97 + 1 = 91)),
    if_neg (by omega : ¬(c - 97 + 1 = 79)),
    if_neg (by omega : ¬(32 ≤ c - 97 + 1 ∧ c - 97 + 1 < 127)),
    if_pos (by omega : 1 ≤ c - 97 + 1 ∧ c - 97 + 1 ≤ 26 ∧ c - 97 + 1 ≠ 27)]
  have he : c - 97 + 1 + 96 = c := by omega
  rw [he]
  rfl

/-- Every canonical event encodes to a non-empty byte sequence that the
parser maps back to exactly that event, consuming exactly that sequence,
whatever bytes follow. -/
theorem parse_canonical (ev : KeyEvent) (h : canonicalEvent ev = true) :
    ∃ bs, key_event_to_bytes ev = some bs ∧ 1 ≤ bs.length ∧
      ∀ rest, parse_bytes (bs ++ rest) = .Key ev bs.length := by
  obtain ⟨key, ctrl, alt, shift⟩ := ev
  cases key
  case char c =>
    cases ctrl <;> cases alt <;> cases shift <;>
      simp only [canonicalEvent, decide_eq_true_eq] at h <;>
      try exact absurd h Bool.false_ne_true
    · exact ⟨[c], enc_plain_char c h.2, by simp,
        fun rest => parse_plain_char c h.1 h.2 rest⟩
    · obtain ⟨h1, h2, h3, h4⟩ := h
      exact ⟨[27, c], enc_alt_char c h2, by simp,
        fun rest => parse_alt_char c h1 h2 h3 h4 rest⟩
    · obtain ⟨h1, h2, h3, h4⟩ := h
      exact ⟨[c - 97 + 1], enc_ctrl_char c h1 h2, by simp,
        fun rest => parse_ctrl_char c h1 h2 h3 h4 rest⟩
    · obtain ⟨h1, h2⟩ := h
      exact ⟨[27, c - 97 + 1], enc_ctrl_alt_char c h1 h2, by simp,
        fun rest => parse_ctrl_alt_char c h1 h2 rest⟩
  case f n =>
    cases ctrl <;> cases alt <;> cases shift <;>
      simp only [canonicalEvent, decide_eq_true_eq] at h <;>
      try exact absurd h Bool.false_ne_true
    obtain ⟨h1, h2⟩ := h
    interval_cases n
    · exact ⟨[27, 79, 80], rfl, by simp, fun rest => by
        simp [parse_bytes, parse_escape_sequence, parse_ss3_sequence,
          KeyEvent.new, Modifiers.none]⟩
    · exact ⟨[27, 79, 81], rfl, by simp, fun rest => by
        simp [parse_bytes, parse_escape_sequence, parse_ss3_sequence,
          KeyEvent.new, Modifiers.none]⟩
    · exact ⟨[27, 79, 82], rfl, by simp, fun rest => by
        simp [parse_bytes, parse_escape_sequence, parse_ss3_sequence,
          KeyEvent.new, Modifiers.none]⟩
    · exact ⟨[27, 79, 83], rfl, by simp, fun rest => by
        simp [parse_bytes, parse_escape_sequence, parse_ss3_sequence,
          KeyEvent.new, Modifiers.none]⟩
    · exact ⟨[27, 91, 49, 53, 126], rfl, by simp, fun rest => by
        simp [parse_bytes, parse_escape_sequence, parse_csi_sequence, csiScan,
          interpret_csi, splitOnSemi, parseU8, digitsVal, KeyEvent.new, Modifiers.none]⟩
    · exact ⟨[27, 91, 49, 55, 126], rfl, by simp, fun rest => by
        simp [parse_bytes, parse_escape_sequence, parse_csi_sequence, csiScan,
          interpret_csi, splitOnSemi, parseU8, digitsVal, KeyEvent.new, Modifiers.none]⟩
    · exact ⟨[27, 91, 49, 56, 126], rfl, by simp, fun rest => by
        simp [parse_bytes, parse_escape_sequence, parse_csi_sequence, csiScan,
          interpret_csi, splitOnSemi, parseU8, digitsVal, KeyEvent.new, Modifiers.none]⟩
    · exact ⟨[27, 91, 49, 57, 126], rfl, by simp, fun rest => by
        simp [parse_bytes, parse_escape_sequence, parse_csi_sequence, csiScan,
          interpret_csi, splitOnSemi, parseU8, digitsVal, KeyEvent.new, Modifiers.none]⟩
    · exact ⟨[27, 91, 50, 48, 126], rfl, by simp, fun rest => by
        simp [parse_bytes, parse_escape_sequence, parse_csi_sequence, csiScan,
          interpret_csi, splitOnSemi, parseU8, digitsVal, KeyEvent.new, Modifiers.none]⟩
    · exact ⟨[27, 91, 50, 49, 126], rfl, by simp, fun rest => by
        simp [parse_bytes, parse_escape_sequence, parse_csi_sequence, csiScan,
          interpret_csi, splitOnSemi, parseU8, digitsVal, KeyEvent.new, Modifiers.none]⟩
    · exact ⟨[27, 91, 50, 51, 126], rfl, by simp, fun rest => by
        simp [parse_bytes, parse_escape_sequence, parse_csi_sequence, csiScan,
          interpret_csi, splitOnSemi, parseU8, digitsVal, KeyEvent.new, Modifiers.none]⟩
    · exact ⟨[27, 91, 50, 52, 126], rfl, by simp, fun rest => by
        simp [parse_bytes, parse_escape_sequence, parse_csi_sequence, csiScan,
          interpret_csi, splitOnSemi, parseU8, digitsVal, KeyEvent.new, Modifiers.none]⟩
  case escape =>
    simp [canonicalEvent] at h
  case enter =>
    cases ctrl <;> cases alt <;> cases shift <;> simp only [canonicalEvent] at h <;>
      try exact absurd h Bool.false_ne_true
    exact ⟨[13], rfl, by simp, fun rest => by
      simp [parse_bytes, KeyEvent.new, Modifiers.none]⟩
  case tab =>
    cases ctrl <;> cases alt <;> cases shift <;> simp only [canonicalEvent] at h <;>
      try exact absurd h Bool.false_ne_true
    exact ⟨[9], rfl, by simp, fun rest => by
      simp [parse_bytes, KeyEvent.new, Modifiers.none]⟩
  case backspace =>
    cases ctrl <;> cases alt <;> cases shift <;> simp only [canonicalEvent] at h <;>
      try exact absurd h Bool.false_ne_true
    exact ⟨[127], rfl, by simp, fun rest => by
      simp [parse_bytes, KeyEvent.new, Modifiers.none]⟩
  case up =>
    cases ctrl <;> cases alt <;> cases shift <;> simp only [canonicalEvent] at h <;>
      try exact absurd h Bool.false_ne_true
    exact ⟨[27, 91, 65], rfl, by simp, fun rest => by
      simp [parse_bytes, parse_escape_sequence, parse_csi_sequence, csiScan,
        interpret_csi, splitOnSemi, parseU8, digitsVal, KeyEvent.new, Modifiers.none]⟩
  case down =>
    cases ctrl <;> cases alt <;> cases shift <;> simp only [canonicalEvent] at h <;>
      try exact absurd h Bool.false_ne_true
    exact ⟨[27, 91, 66], rfl, by simp, fun rest => by
      simp [parse_bytes, parse_escape_sequence, parse_csi_sequence, csiScan,
        interpret_csi, splitOnSemi, parseU8, digitsVal, KeyEvent.new, Modifiers.none]⟩
  case left =>
    cases ctrl <;> cases alt <;> cases shift <;> simp only [canonicalEvent] at h <;>
      try exact absurd h Bool.false_ne_true
    exact ⟨[27, 91, 68], rfl, by simp, fun rest => by
      simp [parse_bytes, parse_escape_sequence, parse_csi_sequence, csiScan,
        interpret_csi, splitOnSemi, parseU8, digitsVal, KeyEvent.new, Modifiers.none]⟩
  case right =>
    cases ctrl <;> cases alt <;> cases shift <;> simp only [canonicalEvent] at h <;>
      try exact absurd h Bool.false_ne_true
    exact ⟨[27, 91, 67], rfl, by simp, fun rest => by
      simp [parse_bytes, parse_escape_sequence, parse_csi_sequence, csiScan,
        interpret_csi, splitOnSemi, parseU8, digitsVal, KeyEvent.new, Modifiers.none]⟩
  case home =>
    cases ctrl <;> cases alt <;> cases shift <;> simp only [canonicalEvent] at h <;>
      try exact absurd h Bool.false_ne_true
    exact ⟨[27, 91, 72], rfl, by simp, fun rest => by
      simp [parse_bytes, parse_escape_sequence, parse_csi_sequence, csiScan,
        interpret_csi, splitOnSemi, parseU8, digitsVal, KeyEvent.new, Modifiers.none]⟩
  case endK =>
    cases ctrl <;> cases alt <;> cases shift <;> simp only [canonicalEvent] at h <;>
      try exact absurd h Bool.false_ne_true
    exact ⟨[27, 91, 70], rfl, by simp, fun rest => by
      simp [parse_bytes, parse_escape_sequence, parse_csi_sequence, csiScan,
        interpret_csi, splitOnSemi, parseU8, digitsVal, KeyEvent.new, Modifiers.none]⟩
  case pageUp =>
    cases ctrl <;> cases alt <;> cases shift <;> simp only [canonicalEvent] at h <;>
      try exact absurd h Bool.false_ne_true
    exact ⟨[27, 91, 53, 126], rfl, by simp, fun rest => by
      simp [parse_bytes, parse_escape_sequence, parse_csi_sequence, csiScan,
        interpret_csi, splitOnSemi, parseU8, digitsVal, KeyEvent.new, Modifiers.none]⟩
  case pageDown =>
    cases ctrl <;> cases alt <;> cases shift <;> simp only [canonicalEvent] at h <;>
      try exact absurd h Bool.false_ne_true
    exact ⟨[27, 91, 54, 126], rfl, by simp, fun rest => by
      simp [parse_bytes, parse_escape_sequence, parse_csi_sequence, csiScan,
        interpret_csi, splitOnSemi, parseU8, digitsVal, KeyEvent.new, Modifiers.none]⟩
  case insert =>
    cases ctrl <;> cases alt <;> cases shift <;> simp only [canonicalEvent] at h <;>
      try exact absurd h Bool.false_ne_true
    exact ⟨[27, 91, 50, 126], rfl, by simp, fun rest => by
      simp [parse_bytes, parse_escape_sequence, parse_csi_sequence, csiScan,
        interpret_csi, splitOnSemi, parseU8, digitsVal, KeyEvent.new, Modifiers.none]⟩
  case delete =>
    cases ctrl <;> cases alt <;> cases shift <;> simp only [canonicalEvent] at h <;>
      try exact absurd h Bool.false_ne_true
    exact ⟨[27, 91, 51, 126], rfl, by simp, fun rest => by
      simp [parse_bytes, parse_escape_sequence, parse_csi_sequence, csiScan,
        interpret_csi, splitOnSemi, parseU8, digitsVal, KeyEvent.new, Modifiers.none]⟩

theorem encodeAll_nil_inv (s : List Nat) (h : encodeAll [] = some s) : s = [] := by
  unfold encodeAll at h
  simp only [List.mapM_nil, pure, Option.map_some] at h
  injection h with h
  exact h.symm

theorem encodeAll_cons_inv (ev : KeyEvent) (evs : List KeyEvent) (s : List Nat)
    (h : encodeAll (ev :: evs) = some s) :
    ∃ b tail, key_event_to_bytes ev = some b ∧ encodeAll evs = some tail ∧
      s = b ++ tail := by
  unfold encodeAll at h ⊢
  rw [List.mapM_cons] at h
  cases he : key_event_to_bytes ev with
  | none => rw [he] at h; simp at h
  | some b =>
    rw [he] at h
    cases hm : evs.mapM key_event_to_bytes with
    | none => rw [hm] at h; simp at h
    | some bs =>
      rw [hm] at h
      simp at h
      exact ⟨b, bs.flatten, rfl, by simp, by rw [← h]⟩

theorem parseAllF_canonical (evs : List KeyEvent) :
    ∀ (fuel : Nat) (s : List Nat),
      (∀ ev ∈ evs, canonicalEvent ev = true) →
      encodeAll evs = some s → s.length < fuel →
      parseAllF fuel s = some evs := by
  induction evs with
  | nil =>
    intro fuel s _ henc _
    rw [encodeAll_nil_inv s henc]
    cases fuel <;> rfl
  | cons ev rest ih =>
    intro fuel s hcanon henc hlen
    obtain ⟨b, tail, he, ht, rfl⟩ := encodeAll_cons_inv ev rest s henc
    obtain ⟨bs, hbs, hbs1, hparse⟩ := parse_canonical ev (hcanon ev (by simp))
    rw [he] at hbs
    injection hbs with hbs
    subst hbs
    cases fuel with
    | zero => omega
    | succ f =>
      cases b with
      | nil => simp at hbs1
      | cons x xs =>
        rw [show (x :: xs) ++ tail = x :: (xs ++ tail) from rfl]
        rw [show parseAllF (f + 1) (x :: (xs ++ tail)) =
          (match parse_bytes (x :: (xs ++ tail)) with
            | .Key ev2 n =>
              if n = 0 then Option.none
              else (parseAllF f ((x :: (xs ++ tail)).drop n)).map (ev2 :: ·)
            | _ => Option.none) from rfl]
        rw [show (x :: (xs ++ tail)) = (x :: xs) ++ tail from rfl, hparse tail]
        dsimp only
        rw [if_neg (by simp : ¬((x :: xs).length = 0))]
        rw [show ((x :: xs) ++ tail).drop (x :: xs).length = tail from
          List.drop_left (x :: xs) tail]
        rw [ih f tail (fun e hm => hcanon e (List.mem_cons_of_mem ev hm)) ht
          (by simp only [List.length_append] at hlen; simp only [List.length_cons] at hlen ⊢; omega)]
        rfl

/-- C6 counterexample: `ESC O H` is fully consumed by the parser as the
single key event Home (an SS3 alias), Home triggers no binding in the empty
configuration `KeybindConfig::new`, yet `key_event_to_bytes` re-encodes Home
as `ESC [ H ≠ ESC O H` — so encode is not a left inverse of parse on the
full accepted grammar. -/
theorem c6_counterexample :
    parseAll [27, 79, 72] = some [⟨.home, ⟨false, false, false⟩⟩] ∧
    List.lookup (⟨.home, ⟨false, false, false⟩⟩ : KeyEvent)
      KeybindConfig.new.direct_bindings = Option.none ∧
    KeybindConfig.new.pfx = Option.none ∧
    encodeAll [⟨.home, ⟨false, false, false⟩⟩] = some [27, 91, 72] ∧
    [27, 91, 72] ≠ [27, 79, 72] := by
  decide

/-- C6 amended: on the canonical sub-grammar — concatenations of the byte
sequences `key_event_to_bytes` itself produces for canonical events
(Ctrl/Alt/plain characters in their primary encodings, unmodified named keys
and F-keys; excluding the alias encodings `ESC O H/F`, tilde-1/4 Home/End,
and CSI sequences carrying modifier parameters) — the parser fully consumes
the sequence into exactly those events, and re-encoding them reproduces the
input bytes; the binding hypothesis mirrors the claim's scope (sequences
none of whose events hit a configured binding). -/
theorem c6_encode_left_inverse_amended (cfg : KeybindConfig)
    (evs : List KeyEvent) (s : List Nat)
    (hcanon : ∀ ev ∈ evs, canonicalEvent ev = true)
    (_hnobind : ∀ ev ∈ evs,
      List.lookup ev cfg.direct_bindings = Option.none ∧ cfg.pfx ≠ some ev)
    (henc : encodeAll evs = some s) :
    parseAll s = some evs ∧ encodeAll evs = some s :=
  ⟨parseAllF_canonical evs (s.length + 1) s hcanon henc (Nat.lt_succ_self _),
    henc⟩

/-- C6 amended witness: `ESC [ A` followed by `h` round-trips through
parse-then-encode under the empty configuration. -/
theorem c6_encode_left_inverse_amended_witness :
    parseAll [27, 91, 65, 104] =
      some [⟨.up, ⟨false, false, false⟩⟩, ⟨.char 104, ⟨false, false, false⟩⟩] ∧
    encodeAll [⟨.up, ⟨false, false, false⟩⟩, ⟨.char 104, ⟨false, false, false⟩⟩] =
      some [27, 91, 65, 104] :=
  c6_encode_left_inverse_amended KeybindConfig.new
    [⟨.up, ⟨false, false, false⟩⟩, ⟨.char 104, ⟨false, false, false⟩⟩]
    [27, 91, 65, 104] (by decide) (by decide) (by decide)

end Crabterm
